import Mathlib

/-!
# Discrete-event scheduler simulator: the engine of `sim_engine.c`

A shallow embedding of the simulation engine (`src/sim_engine.c`) and of the
function `sched` of the priority scheduler (`src/sim_sched_advanced.c`), and
theorems about them.

Modelling conventions.

* C `int` values (`sim_engine_clock`, `ioready_clock`, `cpu_maxburst`, the
  `wait` arguments) are `Int`.  Signed overflow is undefined behaviour in C, so
  the theorems describe the executions in which no addition overflows.
* Pointers are `Nat` addresses.  The two heaps `pcb` and `cpustate` map the
  address of a `struct sim_engine_proc_cb` / `struct sim_cpustate` to its
  contents.
* A `TAILQ` is the list of the addresses of its elements, head first.
  `TAILQ_INSERT_TAIL` is `++ [p]`, `TAILQ_REMOVE` is `List.erase`,
  `TAILQ_FIRST` is the head of the list.
* `pthread_getspecific(sim_engine_tkey_proc_cb)` is the explicit argument
  `self`: the address of the calling process's control block.
* The three callbacks registered by `sim_engine_init` are arbitrary state
  transformers taking the opaque handle.  Each invocation is recorded in the
  field `trace` just before the callback runs, with the clock at that moment.
* A semaphore is its counter.  `sem_post` increments it, `sem_wait` decrements
  a positive counter; both are recorded in `trace`.  The blocking of a thread
  is not part of the embedding.
-/

namespace SimEngine

/-- The fields of `struct sim_engine_proc_cb` that carry data (the thread id,
the process body and the `TAILQ_ENTRY` links are not represented). -/
structure sim_engine_proc_cb where
  proc_cb_p : Nat
  cpusem : Nat
  cpustate_p : Nat
  ioready_clock : Int
  cpu_maxburst : Int
deriving DecidableEq, Repr, Inhabited

/-- The record `struct sim_cpustate` of `sim_engine.h`. -/
structure sim_cpustate where
  cpustate_uptodate : Bool
  state_info_dummy : Nat
deriving DecidableEq, Repr, Inhabited

/-- Observable actions of the engine: callback invocations (opaque handle and
the clock at the call) and semaphore operations on a control block. -/
inductive Event where
  | devioready (arg : Nat) (clock : Int)
  | cpurunout (arg : Nat) (clock : Int)
  | procexit (arg : Nat) (clock : Int)
  | sem_post (p : Nat)
  | sem_wait (p : Nat)
deriving DecidableEq, Repr

/-- The global state of the engine. -/
structure Engine where
  sim_engine_clock : Int
  sim_engine_procs_count : Int
  sim_engine_running : Nat
  sim_engine_active : List Nat
  sim_engine_iowait : List Nat
  pcb : Nat → sim_engine_proc_cb
  cpustate : Nat → sim_cpustate
  trace : List Event

/-- The callbacks stored by `sim_engine_init`. -/
structure Callbacks where
  sim_engine_callback_devioready : Nat → Engine → Engine
  sim_engine_callback_cpurunout : Nat → Engine → Engine
  sim_engine_callback_exit : Nat → Engine → Engine

/-- Callbacks that return without touching the engine. -/
def idle_callbacks : Callbacks :=
  { sim_engine_callback_devioready := fun _ s => s
    sim_engine_callback_cpurunout := fun _ s => s
    sim_engine_callback_exit := fun _ s => s }

/-- The callbacks leave the engine state unchanged. -/
def Callbacks.inert (cb : Callbacks) : Prop :=
  (∀ h s, cb.sim_engine_callback_devioready h s = s) ∧
  (∀ h s, cb.sim_engine_callback_cpurunout h s = s) ∧
  (∀ h s, cb.sim_engine_callback_exit h s = s)

/-- Store `v` at address `p` of a heap. -/
def upd {α : Type} (h : Nat → α) (p : Nat) (v : α) : Nat → α :=
  fun q => if q = p then v else h q

/-- The state right after program start: the statics of `sim_engine.c`
(`sim_engine_clock = 0`, `sim_engine_procs_count = 0`, two empty queues) and
`sem_init(&sim_engine_running, 0, 0)` of `sim_engine_init`. -/
def sim_engine_init (pcb0 : Nat → sim_engine_proc_cb) (cpustate0 : Nat → sim_cpustate) : Engine :=
  { sim_engine_clock := 0
    sim_engine_procs_count := 0
    sim_engine_running := 0
    sim_engine_active := []
    sim_engine_iowait := []
    pcb := pcb0
    cpustate := cpustate0
    trace := [] }

/-- The effect of `sem_post(&p->cpusem)`. -/
def sem_post_cpusem (p : Nat) (s : Engine) : Engine :=
  { s with
    pcb := upd s.pcb p { s.pcb p with cpusem := (s.pcb p).cpusem + 1 }
    trace := s.trace ++ [Event.sem_post p] }

/-- The effect of `sem_wait(&p->cpusem)` on the counter (a positive counter is
decremented; at zero the caller parks, which is only recorded). -/
def sem_wait_cpusem (p : Nat) (s : Engine) : Engine :=
  { s with
    pcb := upd s.pcb p { s.pcb p with cpusem := (s.pcb p).cpusem - 1 }
    trace := s.trace ++ [Event.sem_wait p] }

/-- The function `sim_loadproc` together with the prologue of the thread it
creates (`_sim_loadproc2` up to its `sem_wait`): `p` is the address returned by
`malloc`; `ioready_clock` and `cpu_maxburst` are not initialised. -/
def sim_loadproc (p : Nat) (sim_cpustate_p : Nat) (proc_cb_p : Nat) (s : Engine) : Engine :=
  { s with
    pcb := upd s.pcb p
      { s.pcb p with proc_cb_p := proc_cb_p, cpusem := 0, cpustate_p := sim_cpustate_p }
    cpustate := upd s.cpustate sim_cpustate_p
      { cpustate_uptodate := true, state_info_dummy := p }
    sim_engine_running := s.sim_engine_running - 1
    sim_engine_procs_count := s.sim_engine_procs_count + 1
    sim_engine_active := s.sim_engine_active ++ [p] }

/-- The function `sim_cpustate_save`, called by the process `self`. -/
def sim_cpustate_save (self : Nat) (sim_cpustate_p : Nat) (s : Engine) : Engine :=
  { s with
    cpustate := upd s.cpustate sim_cpustate_p
      { cpustate_uptodate := true, state_info_dummy := self }
    pcb := upd s.pcb self { s.pcb self with cpustate_p := sim_cpustate_p } }

/-- The function `sim_cpustate_restore`; `self` is `none` when the caller is
not a simulated process (the thread-specific pointer is `NULL`). -/
def sim_cpustate_restore (self : Option Nat) (sim_cpustate_p : Nat) (cpu_maxburst : Int)
    (s : Engine) : Engine :=
  let target := (s.cpustate sim_cpustate_p).state_info_dummy
  if (!(s.cpustate sim_cpustate_p).cpustate_uptodate
      || sim_cpustate_p != (s.pcb target).cpustate_p) then
    s
  else
    let s1 : Engine :=
      { s with
        cpustate := upd s.cpustate sim_cpustate_p
          { s.cpustate sim_cpustate_p with cpustate_uptodate := false } }
    let s2 : Engine :=
      { s1 with pcb := upd s1.pcb target { s1.pcb target with cpu_maxburst := cpu_maxburst } }
    let s3 := sem_post_cpusem target s2
    match self with
    | some me => sem_wait_cpusem me s3
    | none => s3

/-- The amount of time the next loop iteration of `sim_cpuburst` may consume:
the conditional expression of the first `if` of the loop. -/
def burst_budget (cpu_maxburst wait : Int) : Int :=
  if cpu_maxburst = 0 ∨ wait < cpu_maxburst then wait else cpu_maxburst

/-- The first branch of the loop body of `sim_cpuburst` (an I/O completion
comes first): `nextioready` is the head of the iowait queue. -/
def sim_cpuburst_ioready (cb : Callbacks) (self : Nat) (wait : Int) (nextioready : Nat)
    (s : Engine) : Int × Engine :=
  let slice := (s.pcb self).cpu_maxburst
  let d := (s.pcb nextioready).ioready_clock - s.sim_engine_clock
  let s1 : Engine :=
    { s with
      pcb := if 0 < slice then
          upd s.pcb self { s.pcb self with cpu_maxburst := slice - d }
        else s.pcb
      sim_engine_clock := (s.pcb nextioready).ioready_clock
      sim_engine_iowait := s.sim_engine_iowait.erase nextioready
      sim_engine_active := s.sim_engine_active ++ [nextioready] }
  (wait - d,
    cb.sim_engine_callback_devioready (s1.pcb nextioready).proc_cb_p
      { s1 with
        trace := s1.trace ++
          [Event.devioready (s1.pcb nextioready).proc_cb_p s1.sim_engine_clock] })

/-- The second `if` of the loop body of `sim_cpuburst`: the slice runs out
before the burst completes, or the burst completes. -/
def sim_cpuburst_advance (cb : Callbacks) (self : Nat) (wait : Int) (s : Engine) :
    Int × Engine :=
  let slice := (s.pcb self).cpu_maxburst
  if 0 < slice ∧ slice < wait then
    let s1 : Engine :=
      { s with
        sim_engine_clock := s.sim_engine_clock + slice
        pcb := upd s.pcb self { s.pcb self with cpu_maxburst := 0 } }
    (wait - slice,
      cb.sim_engine_callback_cpurunout (s1.pcb self).proc_cb_p
        { s1 with
          trace := s1.trace ++ [Event.cpurunout (s1.pcb self).proc_cb_p s1.sim_engine_clock] })
  else
    (0,
      { s with
        sim_engine_clock := s.sim_engine_clock + wait
        pcb := if 0 < slice then
            upd s.pcb self { s.pcb self with cpu_maxburst := slice - wait }
          else s.pcb })

/-- The test of the first `if` of the loop body of `sim_cpuburst`: the iowait
queue has a head and its deadline is strictly before clock plus budget. -/
def ioready_first (self : Nat) (wait : Int) (s : Engine) : Option Nat :=
  match s.sim_engine_iowait with
  | nextioready :: _ =>
    if (s.pcb nextioready).ioready_clock
        < burst_budget (s.pcb self).cpu_maxburst wait + s.sim_engine_clock then
      some nextioready
    else none
  | [] => none

/-- One iteration of the `while (wait > 0)` loop of `sim_cpuburst`: the new
value of `wait` and the new engine state. -/
def sim_cpuburst_iter (cb : Callbacks) (self : Nat) (wait : Int) (s : Engine) : Int × Engine :=
  match ioready_first self wait s with
  | some nextioready => sim_cpuburst_ioready cb self wait nextioready s
  | none => sim_cpuburst_advance cb self wait s

/-- The loop of `sim_cpuburst` run for at most `fuel` iterations: `none` when
the loop has not exited by then. -/
def sim_cpuburst_loop (cb : Callbacks) (self : Nat) : Nat → Int → Engine → Option Engine
  | 0, wait, s => if 0 < wait then none else some s
  | fuel + 1, wait, s =>
    if 0 < wait then
      sim_cpuburst_loop cb self fuel (sim_cpuburst_iter cb self wait s).1
        (sim_cpuburst_iter cb self wait s).2
    else some s

/-- The function `sim_cpuburst` called by the process `self`. -/
def sim_cpuburst (cb : Callbacks) (self : Nat) (wait : Int) (fuel : Nat) (s : Engine) :
    Option Engine :=
  sim_cpuburst_loop cb self fuel wait s

/-- The scan of `sim_deviorequest` over the iowait queue followed by the
insertion: before the first entry whose `ioready_clock` is greater than the
caller's, at the tail when the scan reaches the end. -/
def iowait_insert (pcb : Nat → sim_engine_proc_cb) (self : Nat) : List Nat → List Nat
  | [] => [self]
  | ent :: rest =>
    if (pcb ent).ioready_clock > (pcb self).ioready_clock then self :: ent :: rest
    else ent :: iowait_insert pcb self rest

/-- The function `sim_deviorequest` called by the process `self`. -/
def sim_deviorequest (self : Nat) (wait : Int) (s : Engine) : Engine :=
  let pcb1 := upd s.pcb self { s.pcb self with ioready_clock := s.sim_engine_clock + wait }
  { s with
    sim_engine_active := s.sim_engine_active.erase self
    pcb := pcb1
    sim_engine_iowait := iowait_insert pcb1 self s.sim_engine_iowait }

/-- The function `sim_wait_nextintr` (its thread-specific pointer is read but
never used). -/
def sim_wait_nextintr (cb : Callbacks) (s : Engine) : Engine :=
  match s.sim_engine_iowait with
  | [] => s
  | nextioready :: _ =>
    let s1 : Engine :=
      { s with
        sim_engine_clock := (s.pcb nextioready).ioready_clock
        sim_engine_iowait := s.sim_engine_iowait.erase nextioready
        sim_engine_active := s.sim_engine_active ++ [nextioready] }
    cb.sim_engine_callback_devioready (s1.pcb nextioready).proc_cb_p
      { s1 with
        trace := s1.trace ++
          [Event.devioready (s1.pcb nextioready).proc_cb_p s1.sim_engine_clock] }

/-- The function `sim_engine_getclock`. -/
def sim_engine_getclock (s : Engine) : Int := s.sim_engine_clock

/-- The iowait queue is sorted by ascending `ioready_clock`. -/
def iowait_sorted (s : Engine) : Prop :=
  List.Pairwise (fun a b => (s.pcb a).ioready_clock ≤ (s.pcb b).ioready_clock)
    s.sim_engine_iowait

/-- No entry of the iowait queue has a deadline before the current clock. -/
def iowait_pending (s : Engine) : Prop :=
  ∀ p ∈ s.sim_engine_iowait, s.sim_engine_clock ≤ (s.pcb p).ioready_clock

instance (s : Engine) : Decidable (iowait_sorted s) := by
  unfold iowait_sorted; infer_instance

instance (s : Engine) : Decidable (iowait_pending s) := by
  unfold iowait_pending; infer_instance

/-- A call of one of the engine's primitives, with its caller where the
primitive reads the thread-specific pointer. -/
inductive Prim where
  | loadproc (p sim_cpustate_p proc_cb_p : Nat)
  | cpuburst (self : Nat) (wait : Int)
  | deviorequest (self : Nat) (wait : Int)
  | wait_nextintr
  | cpustate_save (self sim_cpustate_p : Nat)
  | cpustate_restore (self : Option Nat) (sim_cpustate_p : Nat) (cpu_maxburst : Int)
deriving DecidableEq, Repr

/-- Execute one primitive; `fuel` bounds the iterations of a `sim_cpuburst`. -/
def Prim.exec (cb : Callbacks) (fuel : Nat) : Prim → Engine → Option Engine
  | Prim.loadproc p st h, s => some (sim_loadproc p st h s)
  | Prim.cpuburst self wait, s => sim_cpuburst cb self wait fuel s
  | Prim.deviorequest self wait, s => some (sim_deviorequest self wait s)
  | Prim.wait_nextintr, s => some (sim_wait_nextintr cb s)
  | Prim.cpustate_save self st, s => some (sim_cpustate_save self st s)
  | Prim.cpustate_restore self st mb, s => some (sim_cpustate_restore self st mb s)

/-- Execute a sequence of primitives: the state after each of them, in order;
`none` when some `sim_cpuburst` does not return within `fuel` iterations. -/
def run_prims (cb : Callbacks) (fuel : Nat) : List Prim → Engine → Option (List Engine)
  | [], _ => some []
  | op :: ops, s =>
    match op.exec cb fuel s with
    | none => none
    | some s1 => (run_prims cb fuel ops s1).map (fun l => s1 :: l)

/-- The wait argument of the call is non-negative, and a process that calls
`sim_deviorequest` is not already queued in iowait (it is the running process:
`TAILQ_REMOVE` takes it out of active). -/
def Prim.nonneg_wait (s : Engine) : Prim → Bool
  | Prim.cpuburst _ wait => decide (0 ≤ wait)
  | Prim.deviorequest self wait => decide (0 ≤ wait) && decide (self ∉ s.sim_engine_iowait)
  | _ => true

/-- The caller of `sim_cpuburst` has a non-negative slice, as every process
resumed by `sim_cpustate_restore` with a non-negative `cpu_maxburst` has. -/
def Prim.nonneg_slice (s : Engine) : Prim → Bool
  | Prim.cpuburst self _ => decide (0 ≤ (s.pcb self).cpu_maxburst)
  | _ => true

/-- Every call of the sequence satisfies `guard` in the state it is made in. -/
def run_satisfies (guard : Engine → Prim → Bool) (cb : Callbacks) (fuel : Nat) :
    List Prim → Engine → Bool
  | [], _ => true
  | op :: ops, s =>
    guard s op &&
      (match op.exec cb fuel s with
      | none => true
      | some s1 => run_satisfies guard cb fuel ops s1)

/-! ## States and runs used as examples, and measures used in the proofs -/

/-- The opaque handles passed to the slice-runout callback, in order. -/
def runout_args : List Event → List Nat
  | [] => []
  | Event.cpurunout arg _ :: evs => arg :: runout_args evs
  | _ :: evs => runout_args evs

/-- The opaque handles passed to the I/O-ready callback, in order. -/
def ioready_args : List Event → List Nat
  | [] => []
  | Event.devioready arg _ :: evs => arg :: ioready_args evs
  | _ :: evs => ioready_args evs

/-- The number of loop iterations that `sim_cpuburst` needs at most: one per
queued I/O completion, one for a slice runout, one for the completion. -/
def burst_fuel (self : Nat) (s : Engine) : Nat :=
  s.sim_engine_iowait.length + (if 0 < (s.pcb self).cpu_maxburst then 2 else 1)

/-- A state with two sorted iowait entries (deadlines 10 and 20) and the
process at address 3 in the active queue. -/
def deviorequest_state : Engine :=
  { sim_engine_clock := 5
    sim_engine_procs_count := 3
    sim_engine_running := 0
    sim_engine_active := [3]
    sim_engine_iowait := [1, 2]
    pcb := fun p =>
      { proc_cb_p := 100 + p, cpusem := 0, cpustate_p := 200 + p,
        ioready_clock := 10 * p, cpu_maxburst := 0 }
    cpustate := fun _ => { cpustate_uptodate := false, state_info_dummy := 0 }
    trace := [] }

/-- A state at clock 5 with two pending I/O completions (deadlines 10 and 20)
in which the process at address 3 runs with 4 units of slice left. -/
def burst_state : Engine :=
  { sim_engine_clock := 5
    sim_engine_procs_count := 3
    sim_engine_running := 0
    sim_engine_active := [3]
    sim_engine_iowait := [1, 2]
    pcb := fun p =>
      { proc_cb_p := 100 + p, cpusem := 0, cpustate_p := 200 + p,
        ioready_clock := 10 * p, cpu_maxburst := if p = 3 then 4 else 0 }
    cpustate := fun p => { cpustate_uptodate := false, state_info_dummy := p - 200 }
    trace := [] }

/-- A state in which the record at address 203 is up to date and linked both
ways with the control block at address 3, and the record at address 204 is up
to date but names the control block 3, which points back to 203. -/
def restore_state : Engine :=
  { sim_engine_clock := 5
    sim_engine_procs_count := 1
    sim_engine_running := 0
    sim_engine_active := [3]
    sim_engine_iowait := []
    pcb := fun p =>
      { proc_cb_p := 100 + p, cpusem := 0, cpustate_p := 200 + p,
        ioready_clock := 0, cpu_maxburst := 0 }
    cpustate := fun q =>
      { cpustate_uptodate := decide (q = 203 ∨ q = 204), state_info_dummy := 3 }
    trace := [] }

/-- A state at clock 0 in which the process at address 1 runs with slice -1
while the process at address 2 waits for an I/O completion due at clock 5. -/
def negative_slice_state : Engine :=
  { sim_engine_clock := 0
    sim_engine_procs_count := 2
    sim_engine_running := 0
    sim_engine_active := [1]
    sim_engine_iowait := [2]
    pcb := fun p =>
      { proc_cb_p := 100 + p, cpusem := 0, cpustate_p := 200 + p,
        ioready_clock := 5, cpu_maxburst := if p = 1 then -1 else 0 }
    cpustate := fun p => { cpustate_uptodate := false, state_info_dummy := p - 200 }
    trace := [] }

/-- Two processes are loaded; the second is resumed, requests an I/O of 5 and
hands the CPU to the first with `max_burst`; the first bursts for 10 and the
next interrupt is awaited. -/
def handover_run (max_burst : Int) : List Prim :=
  [Prim.loadproc 1 201 101, Prim.loadproc 2 202 102, Prim.cpustate_restore none 202 0,
    Prim.deviorequest 2 5, Prim.cpustate_save 2 202,
    Prim.cpustate_restore (some 2) 201 max_burst, Prim.cpuburst 1 10, Prim.wait_nextintr]

/-- The clock values at which the callbacks were invoked, in order. -/
def callback_clocks : List Event → List Int
  | [] => []
  | Event.devioready _ clock :: evs => clock :: callback_clocks evs
  | Event.cpurunout _ clock :: evs => clock :: callback_clocks evs
  | Event.procexit _ clock :: evs => clock :: callback_clocks evs
  | _ :: evs => callback_clocks evs

/-- The invocations of the I/O-ready callback, in order: the opaque handle
passed and the clock at the invocation. -/
def ioready_calls : List Event → List (Nat × Int)
  | [] => []
  | Event.devioready arg clock :: evs => (arg, clock) :: ioready_calls evs
  | _ :: evs => ioready_calls evs

/-- The epilogue of the thread body `_sim_loadproc2`, run by the process
`self` when its `proc_func` has returned: removal from active, decrement of
`sim_engine_procs_count`, `sem_post(&sim_engine_running)` when the count has
dropped below 1, then the exit callback on the opaque handle (`sem_destroy` and
`free` leave no trace in the state). -/
def sim_loadproc2_exit (cb : Callbacks) (self : Nat) (s : Engine) : Engine :=
  let s1 : Engine :=
    { s with
      sim_engine_active := s.sim_engine_active.erase self
      sim_engine_procs_count := s.sim_engine_procs_count - 1
      sim_engine_running :=
        if s.sim_engine_procs_count - 1 < 1 then s.sim_engine_running + 1
        else s.sim_engine_running }
  cb.sim_engine_callback_exit (s.pcb self).proc_cb_p
    { s1 with
      trace := s1.trace ++ [Event.procexit (s.pcb self).proc_cb_p s1.sim_engine_clock] }

/-- The function `sim_engine_wait_allfinish`: `sem_wait(&sim_engine_running)`
returns, taking one unit, when the counter is positive; `none` when the caller
has to block. -/
def sim_engine_wait_allfinish (s : Engine) : Option Engine :=
  if 0 < s.sim_engine_running then
    some { s with sim_engine_running := s.sim_engine_running - 1 }
  else none

/-- The two events of a process's life that touch the all-finished semaphore:
a call of `sim_loadproc` and the return of a process body. -/
inductive Lifecycle where
  | load (p sim_cpustate_p proc_cb_p : Nat)
  | finish (self : Nat)
deriving DecidableEq, Repr

/-- Execute one lifecycle event. -/
def Lifecycle.exec (cb : Callbacks) : Lifecycle → Engine → Engine
  | Lifecycle.load p st h, s => sim_loadproc p st h s
  | Lifecycle.finish self, s => sim_loadproc2_exit cb self s

/-- Execute a sequence of lifecycle events. -/
def run_lifecycle (cb : Callbacks) : List Lifecycle → Engine → Engine
  | [], s => s
  | ev :: evs, s => run_lifecycle cb evs (ev.exec cb s)

/-- A process exits only when the live count is positive. -/
def lifecycle_ok (cb : Callbacks) : List Lifecycle → Engine → Bool
  | [], _ => true
  | Lifecycle.load p st h :: evs, s => lifecycle_ok cb evs (sim_loadproc p st h s)
  | Lifecycle.finish self :: evs, s =>
    decide (0 < s.sim_engine_procs_count) && lifecycle_ok cb evs (sim_loadproc2_exit cb self s)

/-- Some process was loaded in the sequence. -/
def ever_loaded : List Lifecycle → Bool
  | [] => false
  | Lifecycle.load _ _ _ :: _ => true
  | Lifecycle.finish _ :: evs => ever_loaded evs

/-- The I/O-ordering scenario up to the two requests: P1 (address 1) and P2
(address 2) are loaded at clock 0; P1 is resumed, requests an I/O of 30, saves
its state and hands the CPU to P2; P2 requests an I/O of 20 and saves its
state. -/
def io_ordering_requests : Engine :=
  sim_cpustate_save 2 202 (sim_deviorequest 2 20
    (sim_cpustate_restore (some 1) 202 0 (sim_cpustate_save 1 201 (sim_deviorequest 1 30
      (sim_cpustate_restore none 201 0 (sim_loadproc 2 202 102 (sim_loadproc 1 201 101
        (sim_engine_init (fun _ => default) (fun _ => default)))))))))

/-- The scenario continued: nothing is ready, so `sim_wait_nextintr` is called,
and P2, made ready by it, is resumed with an unlimited slice. -/
def io_ordering_p2_resumed : Engine :=
  sim_cpustate_restore (some 2) 202 0 (sim_wait_nextintr idle_callbacks io_ordering_requests)

/-- The scenario after P2's `sim_cpuburst(10)`. -/
def io_ordering_p2_burst : Option Engine :=
  sim_cpuburst idle_callbacks 2 10 3 io_ordering_p2_resumed

/-- The rest of the scenario: P2 exits, the next interrupt is awaited, P1 is
resumed with an unlimited slice and calls `sim_cpuburst(10)`. -/
def io_ordering_end : Option Engine :=
  io_ordering_p2_burst.bind (fun s =>
    sim_cpuburst idle_callbacks 1 10 3
      (sim_cpustate_restore (some 2) 201 0
        (sim_wait_nextintr idle_callbacks (sim_loadproc2_exit idle_callbacks 2 s))))

/-- The loop variables of `sim_cpuburst` (`wait` and the engine state) after
`k` executions of the loop body. -/
def sim_cpuburst_iterate (cb : Callbacks) (self : Nat) : Nat → Int → Engine → Int × Engine
  | 0, wait, s => (wait, s)
  | k + 1, wait, s =>
    sim_cpuburst_iterate cb self k (sim_cpuburst_iter cb self wait s).1
      (sim_cpuburst_iter cb self wait s).2

/-- A state at clock 5 with two pending I/O completions (deadlines 10 and 20)
in which the process at address 3 runs with 8 units of slice left. -/
def io_slice_state : Engine :=
  { sim_engine_clock := 5
    sim_engine_procs_count := 3
    sim_engine_running := 0
    sim_engine_active := [3]
    sim_engine_iowait := [1, 2]
    pcb := fun p =>
      { proc_cb_p := 100 + p, cpusem := 0, cpustate_p := 200 + p,
        ioready_clock := 10 * p, cpu_maxburst := if p = 3 then 8 else 0 }
    cpustate := fun p => { cpustate_uptodate := false, state_info_dummy := p - 200 }
    trace := [] }

/-! ## The priority scheduler of `sim_sched_advanced.c` -/

/-- The enumeration `enum sim_proc_state`. -/
inductive sim_proc_state where
  | NOEXIST
  | READY
  | RUNNING
  | BLOCKED
deriving DecidableEq, Repr, Inhabited

/-- The record `struct sim_proc` of the priority scheduler.  Its embedded
`proc_cpustate` is not a field here: the record embedded in the process at
address `p` is the entry `p` of the engine's `cpustate` heap.  The
`TAILQ_ENTRY` links are not represented. -/
structure sim_proc where
  proc_pid : Int
  proc_state : sim_proc_state
  priority : Int
  creation_time : Int
deriving DecidableEq, Repr, Inhabited

/-- The globals of the priority scheduler (the table `procs` by address,
`activeproc`, the two queues) together with the state of the engine. -/
structure Policy where
  procs : Nat → sim_proc
  activeproc : Option Nat
  ready_queue : List Nat
  blocked_queue : List Nat
  engine : Engine

/-- The constant `PRIORITY_LOW`. -/
def PRIORITY_LOW : Int := 3

/-- The constant `SIM_CPUMAXBURST` of `sim_sched_advanced.c`. -/
def SIM_CPUMAXBURST : Int := 100

/-- The first step of `sched`: an active process has its CPU state saved, is
appended to the ready queue and marked READY, and `activeproc` is cleared.
The result is `none` when there is an active process and the caller is not a
simulated process: `sim_cpustate_save` then dereferences a `NULL`
thread-specific pointer. -/
def sched_requeue (self : Option Nat) (st : Policy) : Option Policy :=
  match st.activeproc with
  | none => some st
  | some a =>
    match self with
    | none => none
    | some me =>
      some
        { st with
          engine := sim_cpustate_save me a st.engine
          ready_queue := st.ready_queue ++ [a]
          procs := upd st.procs a { st.procs a with proc_state := sim_proc_state.READY }
          activeproc := none }

/-- The `TAILQ_FOREACH` loop of `sched` over the ready queue: the pair
(`min_priority`, `highest_priority_proc`) after the loop, from its value before
the loop. -/
def sched_scan (procs : Nat → sim_proc) : List Nat → Int × Option Nat → Int × Option Nat
  | [], acc => acc
  | p :: rest, (min_priority, highest_priority_proc) =>
    if (procs p).priority < min_priority then
      sched_scan procs rest ((procs p).priority, some p)
    else sched_scan procs rest (min_priority, highest_priority_proc)

/-- The function `sched` of the priority scheduler, called by the thread whose
thread-specific pointer is `self` (logging is left out). -/
def sched (cb : Callbacks) (self : Option Nat) (st : Policy) : Option Policy :=
  match sched_requeue self st with
  | none => none
  | some st1 =>
    match (sched_scan st1.procs st1.ready_queue (PRIORITY_LOW + 1, none)).2 with
    | some q =>
      some
        { st1 with
          activeproc := some q
          ready_queue := st1.ready_queue.erase q
          procs := upd st1.procs q { st1.procs q with proc_state := sim_proc_state.RUNNING }
          engine := sim_cpustate_restore self q SIM_CPUMAXBURST st1.engine }
    | none =>
      some { st1 with activeproc := none, engine := sim_wait_nextintr cb st1.engine }

/-- A scheduler state with the process at address 5 (priority 2) active and
four ready processes at addresses 1 to 4 with priorities 3, 1, 2 and 1; the
engine's control block of a process has the address of the process. -/
def priority_state : Policy :=
  { procs := fun p =>
      { proc_pid := p
        proc_state := if p = 5 then sim_proc_state.RUNNING else sim_proc_state.READY
        priority := if p = 1 then 3 else if p = 2 then 1 else if p = 3 then 2 else
          if p = 4 then 1 else 2
        creation_time := 0 }
    activeproc := some 5
    ready_queue := [1, 2, 3, 4]
    blocked_queue := []
    engine :=
      { sim_engine_clock := 0
        sim_engine_procs_count := 5
        sim_engine_running := 0
        sim_engine_active := [1, 2, 3, 4, 5]
        sim_engine_iowait := []
        pcb := fun p =>
          { proc_cb_p := p, cpusem := 0, cpustate_p := p, ioready_clock := 0,
            cpu_maxburst := 0 }
        cpustate := fun p => { cpustate_uptodate := decide (p ≠ 5), state_info_dummy := p }
        trace := [] } }

/-! ## Heaps and the sorted insertion -/

theorem upd_same {α : Type} (h : Nat → α) (p : Nat) (v : α) : upd h p v p = v := by
  simp [upd]

theorem upd_other {α : Type} (h : Nat → α) (p q : Nat) (v : α) (hq : q ≠ p) :
    upd h p v q = h q := by
  simp [upd, hq]

theorem mem_iowait_insert (pcb : Nat → sim_engine_proc_cb) (self x : Nat) (l : List Nat) :
    x ∈ iowait_insert pcb self l ↔ x = self ∨ x ∈ l := by
  induction l with
  | nil => simp [iowait_insert]
  | cons e rest ih =>
    unfold iowait_insert
    split
    · simp
    · simp only [List.mem_cons, ih]
      tauto

theorem iowait_insert_sorted (pcb : Nat → sim_engine_proc_cb) (self : Nat) (l : List Nat)
    (hl : l.Pairwise (fun a b => (pcb a).ioready_clock ≤ (pcb b).ioready_clock)) :
    (iowait_insert pcb self l).Pairwise
      (fun a b => (pcb a).ioready_clock ≤ (pcb b).ioready_clock) := by
  induction l with
  | nil => simp [iowait_insert]
  | cons e rest ih =>
    rw [List.pairwise_cons] at hl
    unfold iowait_insert
    split
    · rename_i hgt
      refine List.Pairwise.cons ?_ (List.Pairwise.cons hl.1 hl.2)
      intro x hx
      rcases List.mem_cons.1 hx with rfl | hx
      · exact le_of_lt hgt
      · exact le_trans (le_of_lt hgt) (hl.1 x hx)
    · rename_i hgt
      refine List.Pairwise.cons ?_ (ih hl.2)
      intro x hx
      rcases (mem_iowait_insert pcb self x rest).1 hx with rfl | hx
      · exact not_lt.1 hgt
      · exact hl.1 x hx

theorem pairwise_deadline_congr (pcb pcb1 : Nat → sim_engine_proc_cb) (l : List Nat)
    (h : ∀ p ∈ l, (pcb1 p).ioready_clock = (pcb p).ioready_clock)
    (hl : l.Pairwise (fun a b => (pcb a).ioready_clock ≤ (pcb b).ioready_clock)) :
    l.Pairwise (fun a b => (pcb1 a).ioready_clock ≤ (pcb1 b).ioready_clock) := by
  induction l with
  | nil => exact List.Pairwise.nil
  | cons e rest ih =>
    rw [List.pairwise_cons] at hl
    refine List.Pairwise.cons ?_ (ih (fun p hp => h p (List.mem_cons_of_mem _ hp)) hl.2)
    intro x hx
    rw [h e (List.mem_cons_self _ _), h x (List.mem_cons_of_mem _ hx)]
    exact hl.1 x hx

theorem iowait_insert_split (pcb : Nat → sim_engine_proc_cb) (self : Nat) (l : List Nat) :
    ∃ pre post, l = pre ++ post ∧ iowait_insert pcb self l = pre ++ self :: post ∧
      (∀ e ∈ pre, (pcb e).ioready_clock ≤ (pcb self).ioready_clock) ∧
      (∀ e, post.head? = some e → (pcb self).ioready_clock < (pcb e).ioready_clock) := by
  induction l with
  | nil => exact ⟨[], [], rfl, rfl, by simp, by simp⟩
  | cons e rest ih =>
    unfold iowait_insert
    split
    · rename_i hgt
      refine ⟨[], e :: rest, rfl, rfl, by simp, ?_⟩
      intro x hx
      simp only [List.head?_cons, Option.some.injEq] at hx
      subst hx
      exact hgt
    · rename_i hgt
      obtain ⟨pre, post, h1, h2, h3, h4⟩ := ih
      refine ⟨e :: pre, post, by rw [h1]; rfl, by rw [h2]; rfl, ?_, h4⟩
      intro x hx
      rcases List.mem_cons.1 hx with rfl | hx
      · exact not_lt.1 hgt
      · exact h3 x hx

/-! ## The loop of `sim_cpuburst` under callbacks that leave the engine alone -/

theorem runout_args_append (xs ys : List Event) :
    runout_args (xs ++ ys) = runout_args xs ++ runout_args ys := by
  induction xs with
  | nil => rfl
  | cons e xs ih => cases e <;> simp [runout_args, ih]

theorem sim_cpuburst_iter_inert (cb : Callbacks) (hcb : cb.inert) (self : Nat) (wait : Int)
    (s : Engine) :
    sim_cpuburst_iter cb self wait s = sim_cpuburst_iter idle_callbacks self wait s := by
  unfold sim_cpuburst_iter sim_cpuburst_ioready sim_cpuburst_advance
  split
  · simp [hcb.1, idle_callbacks]
  · simp [hcb.2.1, idle_callbacks]

theorem sim_cpuburst_loop_inert (cb : Callbacks) (hcb : cb.inert) (self : Nat) (fuel : Nat) :
    ∀ (wait : Int) (s : Engine),
      sim_cpuburst_loop cb self fuel wait s = sim_cpuburst_loop idle_callbacks self fuel wait s := by
  induction fuel with
  | zero => intro wait s; rfl
  | succ n ih =>
    intro wait s
    simp only [sim_cpuburst_loop, sim_cpuburst_iter_inert cb hcb, ih]

theorem sim_cpuburst_loop_done (cb : Callbacks) (self : Nat) (fuel : Nat) (wait : Int)
    (s : Engine) (hw : wait ≤ 0) : sim_cpuburst_loop cb self fuel wait s = some s := by
  cases fuel <;> simp [sim_cpuburst_loop, not_lt.2 hw]

theorem burst_budget_le_wait (slice wait : Int) : burst_budget slice wait ≤ wait := by
  unfold burst_budget
  split
  · exact le_refl _
  · rename_i h
    push_neg at h
    exact h.2

theorem burst_budget_le_slice (slice wait : Int) (hs : 0 < slice) :
    burst_budget slice wait ≤ slice := by
  unfold burst_budget
  split
  · rename_i h
    rcases h with h | h
    · omega
    · exact le_of_lt h
  · exact le_refl _

theorem ioready_first_some (self : Nat) (wait : Int) (s : Engine) (n : Nat)
    (h : ioready_first self wait s = some n) :
    ∃ rest, s.sim_engine_iowait = n :: rest ∧
      (s.pcb n).ioready_clock
        < burst_budget (s.pcb self).cpu_maxburst wait + s.sim_engine_clock := by
  unfold ioready_first at h
  split at h
  · rename_i m rest heq
    split at h
    · rename_i hlt
      simp only [Option.some.injEq] at h
      subst h
      exact ⟨rest, heq, hlt⟩
    · simp at h
  · simp at h

theorem ioready_first_none (self : Nat) (wait : Int) (s : Engine)
    (h : ioready_first self wait s = none) (n : Nat) (rest : List Nat)
    (hq : s.sim_engine_iowait = n :: rest) :
    burst_budget (s.pcb self).cpu_maxburst wait + s.sim_engine_clock
      ≤ (s.pcb n).ioready_clock := by
  unfold ioready_first at h
  rw [hq] at h
  simp only at h
  split at h
  · simp at h
  · rename_i hlt
    exact not_lt.1 hlt

/-- The state reached by the I/O-completion branch when the callback is inert. -/
theorem sim_cpuburst_ioready_idle (self : Nat) (wait : Int) (n : Nat) (s : Engine) :
    (sim_cpuburst_ioready idle_callbacks self wait n s).1
        = wait - ((s.pcb n).ioready_clock - s.sim_engine_clock) ∧
    (sim_cpuburst_ioready idle_callbacks self wait n s).2.sim_engine_clock
        = (s.pcb n).ioready_clock ∧
    (sim_cpuburst_ioready idle_callbacks self wait n s).2.sim_engine_iowait
        = s.sim_engine_iowait.erase n ∧
    (sim_cpuburst_ioready idle_callbacks self wait n s).2.sim_engine_active
        = s.sim_engine_active ++ [n] ∧
    (sim_cpuburst_ioready idle_callbacks self wait n s).2.trace
        = s.trace ++ [Event.devioready (s.pcb n).proc_cb_p (s.pcb n).ioready_clock] ∧
    ((sim_cpuburst_ioready idle_callbacks self wait n s).2.pcb self).cpu_maxburst
        = (if 0 < (s.pcb self).cpu_maxburst then
            (s.pcb self).cpu_maxburst - ((s.pcb n).ioready_clock - s.sim_engine_clock)
          else (s.pcb self).cpu_maxburst) ∧
    (∀ p, ((sim_cpuburst_ioready idle_callbacks self wait n s).2.pcb p).proc_cb_p
        = (s.pcb p).proc_cb_p) ∧
    (∀ p, ((sim_cpuburst_ioready idle_callbacks self wait n s).2.pcb p).ioready_clock
        = (s.pcb p).ioready_clock) := by
  have hp : ∀ p, ((if 0 < (s.pcb self).cpu_maxburst then
        upd s.pcb self { s.pcb self with
          cpu_maxburst := (s.pcb self).cpu_maxburst
            - ((s.pcb n).ioready_clock - s.sim_engine_clock) }
        else s.pcb) p).proc_cb_p = (s.pcb p).proc_cb_p := by
    intro p
    split
    · by_cases hps : p = self
      · subst hps; simp [upd_same]
      · simp [upd_other _ _ _ _ hps]
    · rfl
  refine ⟨rfl, rfl, rfl, rfl, ?_, ?_, ?_, ?_⟩
  · simp only [sim_cpuburst_ioready, idle_callbacks]
    rw [hp n]
  · simp only [sim_cpuburst_ioready, idle_callbacks]
    split
    · simp [upd_same]
    · rfl
  · exact hp
  · intro p
    simp only [sim_cpuburst_ioready, idle_callbacks]
    split
    · by_cases hps : p = self
      · subst hps; simp [upd_same]
      · simp [upd_other _ _ _ _ hps]
    · rfl

/-- The state reached by the slice-runout branch when the callback is inert. -/
theorem sim_cpuburst_advance_runout_idle (self : Nat) (wait : Int) (s : Engine)
    (h : 0 < (s.pcb self).cpu_maxburst ∧ (s.pcb self).cpu_maxburst < wait) :
    (sim_cpuburst_advance idle_callbacks self wait s).1 = wait - (s.pcb self).cpu_maxburst ∧
    (sim_cpuburst_advance idle_callbacks self wait s).2.sim_engine_clock
        = s.sim_engine_clock + (s.pcb self).cpu_maxburst ∧
    (sim_cpuburst_advance idle_callbacks self wait s).2.sim_engine_iowait
        = s.sim_engine_iowait ∧
    (sim_cpuburst_advance idle_callbacks self wait s).2.sim_engine_active
        = s.sim_engine_active ∧
    (sim_cpuburst_advance idle_callbacks self wait s).2.trace
        = s.trace ++ [Event.cpurunout (s.pcb self).proc_cb_p
            (s.sim_engine_clock + (s.pcb self).cpu_maxburst)] ∧
    ((sim_cpuburst_advance idle_callbacks self wait s).2.pcb self).cpu_maxburst = 0 ∧
    (∀ p, ((sim_cpuburst_advance idle_callbacks self wait s).2.pcb p).proc_cb_p
        = (s.pcb p).proc_cb_p) ∧
    (∀ p, ((sim_cpuburst_advance idle_callbacks self wait s).2.pcb p).ioready_clock
        = (s.pcb p).ioready_clock) := by
  have hp : ∀ p, (upd s.pcb self { s.pcb self with cpu_maxburst := 0 } p).proc_cb_p
      = (s.pcb p).proc_cb_p := by
    intro p
    by_cases hps : p = self
    · subst hps; simp [upd_same]
    · simp [upd_other _ _ _ _ hps]
  have hd : ∀ p, (upd s.pcb self { s.pcb self with cpu_maxburst := 0 } p).ioready_clock
      = (s.pcb p).ioready_clock := by
    intro p
    by_cases hps : p = self
    · subst hps; simp [upd_same]
    · simp [upd_other _ _ _ _ hps]
  have e : sim_cpuburst_advance idle_callbacks self wait s
      = (wait - (s.pcb self).cpu_maxburst,
          { s with
            sim_engine_clock := s.sim_engine_clock + (s.pcb self).cpu_maxburst
            pcb := upd s.pcb self { s.pcb self with cpu_maxburst := 0 }
            trace := s.trace ++ [Event.cpurunout (s.pcb self).proc_cb_p
              (s.sim_engine_clock + (s.pcb self).cpu_maxburst)] }) := by
    simp only [sim_cpuburst_advance, if_pos h, idle_callbacks, hp self]
  rw [e]
  exact ⟨rfl, rfl, rfl, rfl, rfl, by simp [upd_same], hp, hd⟩

/-- The state reached by the completion branch (no callback is involved). -/
theorem sim_cpuburst_advance_complete (cb : Callbacks) (self : Nat) (wait : Int) (s : Engine)
    (h : ¬ (0 < (s.pcb self).cpu_maxburst ∧ (s.pcb self).cpu_maxburst < wait)) :
    (sim_cpuburst_advance cb self wait s).1 = 0 ∧
    (sim_cpuburst_advance cb self wait s).2.sim_engine_clock = s.sim_engine_clock + wait ∧
    (sim_cpuburst_advance cb self wait s).2.sim_engine_iowait = s.sim_engine_iowait ∧
    (sim_cpuburst_advance cb self wait s).2.sim_engine_active = s.sim_engine_active ∧
    (sim_cpuburst_advance cb self wait s).2.trace = s.trace ∧
    ((sim_cpuburst_advance cb self wait s).2.pcb self).cpu_maxburst
        = (if 0 < (s.pcb self).cpu_maxburst then (s.pcb self).cpu_maxburst - wait
          else (s.pcb self).cpu_maxburst) ∧
    (∀ p, ((sim_cpuburst_advance cb self wait s).2.pcb p).proc_cb_p = (s.pcb p).proc_cb_p) ∧
    (∀ p, ((sim_cpuburst_advance cb self wait s).2.pcb p).ioready_clock
        = (s.pcb p).ioready_clock) := by
  have e : sim_cpuburst_advance cb self wait s
      = (0,
          { s with
            sim_engine_clock := s.sim_engine_clock + wait
            pcb := if 0 < (s.pcb self).cpu_maxburst then
                upd s.pcb self { s.pcb self with cpu_maxburst := (s.pcb self).cpu_maxburst - wait }
              else s.pcb }) := by
    simp only [sim_cpuburst_advance, if_neg h]
  rw [e]
  refine ⟨rfl, rfl, rfl, rfl, rfl, ?_, ?_, ?_⟩
  · show ((if _ then _ else _ : Nat → sim_engine_proc_cb) self).cpu_maxburst = _
    split
    · simp [upd_same]
    · rfl
  · intro p
    split
    · by_cases hps : p = self
      · subst hps; simp [upd_same]
      · simp [upd_other _ _ _ _ hps]
    · rfl
  · intro p
    split
    · by_cases hps : p = self
      · subst hps; simp [upd_same]
      · simp [upd_other _ _ _ _ hps]
    · rfl

theorem burst_fuel_le (self : Nat) (s : Engine) :
    burst_fuel self s ≤ s.sim_engine_iowait.length + 2 := by
  unfold burst_fuel
  split <;> omega

/-- What a whole `sim_cpuburst` call does when the callbacks are inert: it
returns, the clock has advanced by `wait`, the slice-runout callback was
invoked once with the caller's handle exactly when the slice was positive and
smaller than `wait`, and an unlimited slice stays unlimited. -/
theorem sim_cpuburst_loop_idle (self : Nat) (fuel : Nat) :
    ∀ (wait : Int) (s : Engine), 0 ≤ wait → burst_fuel self s ≤ fuel →
      ∃ s' evs, sim_cpuburst_loop idle_callbacks self fuel wait s = some s' ∧
        s'.sim_engine_clock = s.sim_engine_clock + wait ∧
        s'.trace = s.trace ++ evs ∧
        runout_args evs =
          (if 0 < (s.pcb self).cpu_maxburst ∧ (s.pcb self).cpu_maxburst < wait then
            [(s.pcb self).proc_cb_p] else []) ∧
        ((s.pcb self).cpu_maxburst = 0 → (s'.pcb self).cpu_maxburst = 0) ∧
        (s'.pcb self).proc_cb_p = (s.pcb self).proc_cb_p := by
  induction fuel with
  | zero =>
    intro wait s _ hf
    unfold burst_fuel at hf
    split at hf <;> omega
  | succ fuel ih =>
    intro wait s hw hf
    by_cases hpos : 0 < wait
    swap
    · have hw0 : wait = 0 := by omega
      subst hw0
      refine ⟨s, [], sim_cpuburst_loop_done _ _ _ _ _ (le_refl _), by simp, by simp, ?_,
        fun h => h, rfl⟩
      have : ¬ (0 < (s.pcb self).cpu_maxburst ∧ (s.pcb self).cpu_maxburst < 0) := by omega
      simp [runout_args, this]
    · simp only [sim_cpuburst_loop, if_pos hpos, sim_cpuburst_iter]
      cases hio : ioready_first self wait s with
      | some n =>
        simp only
        obtain ⟨rest, hq, hlt⟩ := ioready_first_some self wait s n hio
        obtain ⟨h1, h2, h3, _, h5, h6, h7, _⟩ := sim_cpuburst_ioready_idle self wait n s
        have hbw := burst_budget_le_wait (s.pcb self).cpu_maxburst wait
        have hf' : burst_fuel self (sim_cpuburst_ioready idle_callbacks self wait n s).2
            ≤ fuel := by
          unfold burst_fuel at hf ⊢
          rw [h3, h6, hq, List.erase_cons_head]
          rw [hq, List.length_cons] at hf
          by_cases hs : 0 < (s.pcb self).cpu_maxburst
          · have := burst_budget_le_slice _ wait hs
            rw [if_pos hs] at hf ⊢
            rw [if_pos (by omega)]
            omega
          · rw [if_neg hs] at hf ⊢
            rw [if_neg hs]
            omega
        obtain ⟨s', evs, e1, e2, e3, e4, e5, e6⟩ :=
          ih (sim_cpuburst_ioready idle_callbacks self wait n s).1
            (sim_cpuburst_ioready idle_callbacks self wait n s).2 (by rw [h1]; omega) hf'
        refine ⟨s', Event.devioready (s.pcb n).proc_cb_p (s.pcb n).ioready_clock :: evs,
          e1, ?_, ?_, ?_, ?_, ?_⟩
        · rw [e2, h1, h2]; ring
        · rw [e3, h5]; simp
        · simp only [runout_args]
          rw [e4, h6, h1, h7]
          by_cases hs : 0 < (s.pcb self).cpu_maxburst
          · have := burst_budget_le_slice _ wait hs
            rw [if_pos hs]
            by_cases hsw : (s.pcb self).cpu_maxburst < wait
            · rw [if_pos ⟨by omega, by omega⟩, if_pos ⟨hs, hsw⟩]
            · rw [if_neg (by omega), if_neg (by omega)]
          · rw [if_neg hs, if_neg (by omega), if_neg (by omega)]
        · intro h0
          apply e5
          rw [h6, if_neg (by omega)]
          exact h0
        · rw [e6, h7]
      | none =>
        simp only
        by_cases hr : 0 < (s.pcb self).cpu_maxburst ∧ (s.pcb self).cpu_maxburst < wait
        · obtain ⟨h1, h2, h3, _, h5, h6, h7, _⟩ :=
            sim_cpuburst_advance_runout_idle self wait s hr
          have hf' : burst_fuel self (sim_cpuburst_advance idle_callbacks self wait s).2
              ≤ fuel := by
            unfold burst_fuel at hf ⊢
            rw [h3, h6]
            rw [if_pos hr.1] at hf
            simp only [lt_self_iff_false, if_false]
            omega
          obtain ⟨s', evs, e1, e2, e3, e4, _, e6⟩ :=
            ih (sim_cpuburst_advance idle_callbacks self wait s).1
              (sim_cpuburst_advance idle_callbacks self wait s).2 (by rw [h1]; omega) hf'
          refine ⟨s', Event.cpurunout (s.pcb self).proc_cb_p
              (s.sim_engine_clock + (s.pcb self).cpu_maxburst) :: evs, e1, ?_, ?_, ?_, ?_, ?_⟩
          · rw [e2, h1, h2]; ring
          · rw [e3, h5]; simp
          · simp only [runout_args]
            rw [e4, h6, if_pos hr]
            simp
          · intro h0; omega
          · rw [e6, h7]
        · obtain ⟨h1, h2, _, _, h5, h6, h7, _⟩ :=
            sim_cpuburst_advance_complete idle_callbacks self wait s hr
          refine ⟨(sim_cpuburst_advance idle_callbacks self wait s).2, [], ?_, h2, ?_, ?_, ?_,
            h7 self⟩
          · rw [h1]
            exact sim_cpuburst_loop_done _ _ _ _ _ (le_refl _)
          · rw [h5]; simp
          · rw [if_neg hr]; rfl
          · intro h0
            rw [h6, if_neg (by omega)]
            exact h0

theorem burst_budget_eq_slice (slice wait : Int) (hs : 0 < slice) (hw : slice < wait) :
    burst_budget slice wait = slice := by
  unfold burst_budget
  rw [if_neg (by omega)]

theorem burst_budget_eq_wait (slice wait : Int) (hs : 0 ≤ slice)
    (h : ¬ (0 < slice ∧ slice < wait)) : burst_budget slice wait = wait := by
  unfold burst_budget
  split
  · rfl
  · omega

/-- One loop iteration of `sim_cpuburst`, entered with `wait > 0`, a
non-negative slice, a sorted iowait queue without overdue entries and inert
callbacks: the queue is still sorted and without overdue entries, the slice is
still non-negative, the clock has not gone back and the queue has not grown. -/
theorem sim_cpuburst_iter_invariant (self : Nat) (wait : Int) (s : Engine)
    (hslice : 0 ≤ (s.pcb self).cpu_maxburst) (hs : iowait_sorted s) (hp : iowait_pending s) :
    iowait_sorted (sim_cpuburst_iter idle_callbacks self wait s).2 ∧
    (0 < wait → iowait_pending (sim_cpuburst_iter idle_callbacks self wait s).2) ∧
    0 ≤ ((sim_cpuburst_iter idle_callbacks self wait s).2.pcb self).cpu_maxburst ∧
    (0 < wait → s.sim_engine_clock
      ≤ (sim_cpuburst_iter idle_callbacks self wait s).2.sim_engine_clock) ∧
    (sim_cpuburst_iter idle_callbacks self wait s).2.sim_engine_iowait.length
      ≤ s.sim_engine_iowait.length := by
  unfold sim_cpuburst_iter
  cases hio : ioready_first self wait s with
  | some n =>
    simp only
    obtain ⟨rest, hq, hlt⟩ := ioready_first_some self wait s n hio
    obtain ⟨_, h2, h3, _, _, h6, _, h8⟩ := sim_cpuburst_ioready_idle self wait n s
    have hsorted := hs
    unfold iowait_sorted at hsorted
    rw [hq, List.pairwise_cons] at hsorted
    rw [hq, List.erase_cons_head] at h3
    refine ⟨?_, ?_, ?_, ?_, ?_⟩
    · unfold iowait_sorted
      rw [h3]
      exact pairwise_deadline_congr s.pcb _ _ (fun p _ => h8 p) hsorted.2
    · intro _ p hpm
      rw [h3] at hpm
      rw [h2, h8]
      exact hsorted.1 p hpm
    · rw [h6]
      split
      · rename_i hpos
        have := burst_budget_le_slice _ wait hpos
        omega
      · exact hslice
    · intro _
      rw [h2]
      exact hp n (by rw [hq]; exact List.mem_cons_self _ _)
    · rw [h3, hq]
      simp
  | none =>
    simp only
    have hhead : ∀ p ∈ s.sim_engine_iowait,
        burst_budget (s.pcb self).cpu_maxburst wait + s.sim_engine_clock
          ≤ (s.pcb p).ioready_clock := by
      intro p hpm
      cases hq : s.sim_engine_iowait with
      | nil => rw [hq] at hpm; simp at hpm
      | cons n rest =>
        have h1 := ioready_first_none self wait s hio n rest hq
        have hsorted := hs
        unfold iowait_sorted at hsorted
        rw [hq, List.pairwise_cons] at hsorted
        rw [hq] at hpm
        rcases List.mem_cons.1 hpm with rfl | hpm
        · exact h1
        · exact le_trans h1 (hsorted.1 p hpm)
    by_cases hr : 0 < (s.pcb self).cpu_maxburst ∧ (s.pcb self).cpu_maxburst < wait
    · obtain ⟨_, h2, h3, _, _, h6, _, h8⟩ := sim_cpuburst_advance_runout_idle self wait s hr
      refine ⟨?_, ?_, ?_, ?_, ?_⟩
      · unfold iowait_sorted
        rw [h3]
        exact pairwise_deadline_congr s.pcb _ _ (fun p _ => h8 p) hs
      · intro _ p hpm
        rw [h3] at hpm
        rw [h2, h8]
        have := hhead p hpm
        rw [burst_budget_eq_slice _ _ hr.1 hr.2] at this
        omega
      · rw [h6]
      · intro _
        rw [h2]
        omega
      · rw [h3]
    · obtain ⟨_, h2, h3, _, _, h6, _, h8⟩ :=
        sim_cpuburst_advance_complete idle_callbacks self wait s hr
      refine ⟨?_, ?_, ?_, ?_, ?_⟩
      · unfold iowait_sorted
        rw [h3]
        exact pairwise_deadline_congr s.pcb _ _ (fun p _ => h8 p) hs
      · intro _ p hpm
        rw [h3] at hpm
        rw [h2, h8]
        have := hhead p hpm
        rw [burst_budget_eq_wait _ _ hslice hr] at this
        omega
      · rw [h6]
        split <;> omega
      · intro _
        rw [h2]
        omega
      · rw [h3]

/-- A whole `sim_cpuburst` loop with inert callbacks, entered with a
non-negative slice and a sorted iowait queue without overdue entries: whenever
it returns, the queue is sorted and without overdue entries, it has not grown
and the clock has not gone back. -/
theorem sim_cpuburst_loop_invariant (self : Nat) (fuel : Nat) :
    ∀ (wait : Int) (s s' : Engine), 0 ≤ (s.pcb self).cpu_maxburst → iowait_sorted s →
      iowait_pending s → sim_cpuburst_loop idle_callbacks self fuel wait s = some s' →
      iowait_sorted s' ∧ iowait_pending s' ∧
        s'.sim_engine_iowait.length ≤ s.sim_engine_iowait.length ∧
        s.sim_engine_clock ≤ s'.sim_engine_clock := by
  induction fuel with
  | zero =>
    intro wait s s' _ hs hp h
    simp only [sim_cpuburst_loop] at h
    split at h
    · simp at h
    · simp only [Option.some.injEq] at h
      subst h
      exact ⟨hs, hp, le_refl _, le_refl _⟩
  | succ fuel ih =>
    intro wait s s' hslice hs hp h
    simp only [sim_cpuburst_loop] at h
    split at h
    · rename_i hw
      obtain ⟨i1, i2, i3, i4, i5⟩ := sim_cpuburst_iter_invariant self wait s hslice hs hp
      obtain ⟨j1, j2, j3, j4⟩ := ih _ _ s' i3 i1 (i2 hw) h
      exact ⟨j1, j2, le_trans j3 i5, le_trans (i4 hw) j4⟩
    · simp only [Option.some.injEq] at h
      subst h
      exact ⟨hs, hp, le_refl _, le_refl _⟩

theorem sim_deviorequest_sorted (self : Nat) (wait : Int) (s : Engine)
    (hself : self ∉ s.sim_engine_iowait) (hs : iowait_sorted s) :
    iowait_sorted (sim_deviorequest self wait s) := by
  unfold iowait_sorted sim_deviorequest
  apply iowait_insert_sorted
  apply pairwise_deadline_congr s.pcb _ _ _ hs
  intro p hp
  have hne : p ≠ self := fun h => hself (h ▸ hp)
  show (upd s.pcb self _ p).ioready_clock = _
  rw [upd_other _ _ _ _ hne]

theorem sim_deviorequest_pending (self : Nat) (wait : Int) (s : Engine) (hw : 0 ≤ wait)
    (hp : iowait_pending s) : iowait_pending (sim_deviorequest self wait s) := by
  intro p hpm
  have hmem : p = self ∨ p ∈ s.sim_engine_iowait := (mem_iowait_insert _ self p _).1 hpm
  show s.sim_engine_clock ≤ (upd s.pcb self _ p).ioready_clock
  by_cases hps : p = self
  · subst hps
    rw [upd_same]
    show s.sim_engine_clock ≤ s.sim_engine_clock + wait
    omega
  · rw [upd_other _ _ _ _ hps]
    rcases hmem with h | h
    · exact absurd h hps
    · exact hp p h

theorem length_iowait_insert (pcb : Nat → sim_engine_proc_cb) (self : Nat) (l : List Nat) :
    (iowait_insert pcb self l).length = l.length + 1 := by
  induction l with
  | nil => rfl
  | cons e rest ih =>
    unfold iowait_insert
    split
    · rfl
    · simp [ih]

/-- A step that leaves the clock, the iowait queue and every deadline alone
keeps the queue sorted and without overdue entries. -/
theorem iowait_frame (s s1 : Engine) (hq : s1.sim_engine_iowait = s.sim_engine_iowait)
    (hc : s1.sim_engine_clock = s.sim_engine_clock)
    (hd : ∀ p, (s1.pcb p).ioready_clock = (s.pcb p).ioready_clock)
    (hs : iowait_sorted s) (hp : iowait_pending s) :
    iowait_sorted s1 ∧ iowait_pending s1 := by
  constructor
  · unfold iowait_sorted
    rw [hq]
    exact pairwise_deadline_congr s.pcb _ _ (fun p _ => hd p) hs
  · intro p hpm
    rw [hq] at hpm
    rw [hc, hd]
    exact hp p hpm

theorem sim_wait_nextintr_invariant (cb : Callbacks) (hcb : cb.inert) (s : Engine)
    (hs : iowait_sorted s) (hp : iowait_pending s) :
    iowait_sorted (sim_wait_nextintr cb s) ∧ iowait_pending (sim_wait_nextintr cb s) ∧
      s.sim_engine_clock ≤ (sim_wait_nextintr cb s).sim_engine_clock ∧
      (sim_wait_nextintr cb s).sim_engine_iowait.length ≤ s.sim_engine_iowait.length := by
  cases hq : s.sim_engine_iowait with
  | nil =>
    have e : sim_wait_nextintr cb s = s := by
      unfold sim_wait_nextintr
      rw [hq]
    rw [e, hq]
    exact ⟨hs, hp, le_refl _, le_refl _⟩
  | cons n rest =>
    have e : sim_wait_nextintr cb s =
        { s with
          sim_engine_clock := (s.pcb n).ioready_clock
          sim_engine_iowait := rest
          sim_engine_active := s.sim_engine_active ++ [n]
          trace := s.trace ++
            [Event.devioready (s.pcb n).proc_cb_p (s.pcb n).ioready_clock] } := by
      unfold sim_wait_nextintr
      rw [hq]
      simp only [List.erase_cons_head, hcb.1]
    have hsorted := hs
    unfold iowait_sorted at hsorted
    rw [hq, List.pairwise_cons] at hsorted
    rw [e]
    refine ⟨hsorted.2, fun p hpm => hsorted.1 p hpm, ?_, by simp⟩
    exact hp n (by rw [hq]; exact List.mem_cons_self _ _)

theorem sim_loadproc_deadline (p st h : Nat) (s : Engine) (q : Nat) :
    ((sim_loadproc p st h s).pcb q).ioready_clock = (s.pcb q).ioready_clock := by
  show (upd s.pcb p _ q).ioready_clock = _
  by_cases hq : q = p
  · subst hq; rw [upd_same]
  · rw [upd_other _ _ _ _ hq]

theorem sim_cpustate_save_deadline (self st : Nat) (s : Engine) (q : Nat) :
    ((sim_cpustate_save self st s).pcb q).ioready_clock = (s.pcb q).ioready_clock := by
  show (upd s.pcb self _ q).ioready_clock = _
  by_cases hq : q = self
  · subst hq; rw [upd_same]
  · rw [upd_other _ _ _ _ hq]

theorem sem_post_cpusem_frame (p : Nat) (s : Engine) :
    (sem_post_cpusem p s).sim_engine_clock = s.sim_engine_clock ∧
    (sem_post_cpusem p s).sim_engine_iowait = s.sim_engine_iowait ∧
    (sem_post_cpusem p s).sim_engine_active = s.sim_engine_active ∧
    (∀ q, ((sem_post_cpusem p s).pcb q).ioready_clock = (s.pcb q).ioready_clock) ∧
    (∀ q, ((sem_post_cpusem p s).pcb q).cpu_maxburst = (s.pcb q).cpu_maxburst) := by
  refine ⟨rfl, rfl, rfl, ?_, ?_⟩
  · intro q
    show (upd s.pcb p _ q).ioready_clock = _
    by_cases hq : q = p
    · subst hq; rw [upd_same]
    · rw [upd_other _ _ _ _ hq]
  · intro q
    show (upd s.pcb p _ q).cpu_maxburst = _
    by_cases hq : q = p
    · subst hq; rw [upd_same]
    · rw [upd_other _ _ _ _ hq]

theorem sem_wait_cpusem_frame (p : Nat) (s : Engine) :
    (sem_wait_cpusem p s).sim_engine_clock = s.sim_engine_clock ∧
    (sem_wait_cpusem p s).sim_engine_iowait = s.sim_engine_iowait ∧
    (sem_wait_cpusem p s).sim_engine_active = s.sim_engine_active ∧
    (∀ q, ((sem_wait_cpusem p s).pcb q).ioready_clock = (s.pcb q).ioready_clock) ∧
    (∀ q, ((sem_wait_cpusem p s).pcb q).cpu_maxburst = (s.pcb q).cpu_maxburst) := by
  refine ⟨rfl, rfl, rfl, ?_, ?_⟩
  · intro q
    show (upd s.pcb p _ q).ioready_clock = _
    by_cases hq : q = p
    · subst hq; rw [upd_same]
    · rw [upd_other _ _ _ _ hq]
  · intro q
    show (upd s.pcb p _ q).cpu_maxburst = _
    by_cases hq : q = p
    · subst hq; rw [upd_same]
    · rw [upd_other _ _ _ _ hq]

/-- The function `sim_cpustate_restore` changes neither the clock, nor the
queues, nor any deadline. -/
theorem sim_cpustate_restore_frame (self : Option Nat) (st : Nat) (mb : Int) (s : Engine) :
    (sim_cpustate_restore self st mb s).sim_engine_clock = s.sim_engine_clock ∧
    (sim_cpustate_restore self st mb s).sim_engine_iowait = s.sim_engine_iowait ∧
    (sim_cpustate_restore self st mb s).sim_engine_active = s.sim_engine_active ∧
    (∀ q, ((sim_cpustate_restore self st mb s).pcb q).ioready_clock
      = (s.pcb q).ioready_clock) := by
  unfold sim_cpustate_restore
  simp only
  split
  · exact ⟨rfl, rfl, rfl, fun _ => rfl⟩
  · have hd : ∀ q, (upd s.pcb (s.cpustate st).state_info_dummy
        { s.pcb (s.cpustate st).state_info_dummy with cpu_maxburst := mb } q).ioready_clock
        = (s.pcb q).ioready_clock := by
      intro q
      by_cases hq : q = (s.cpustate st).state_info_dummy
      · subst hq; rw [upd_same]
      · rw [upd_other _ _ _ _ hq]
    cases self with
    | none =>
      simp only
      obtain ⟨a1, a2, a3, a4, _⟩ := sem_post_cpusem_frame (s.cpustate st).state_info_dummy
        { s with
          cpustate := upd s.cpustate st { s.cpustate st with cpustate_uptodate := false }
          pcb := upd s.pcb (s.cpustate st).state_info_dummy
            { s.pcb (s.cpustate st).state_info_dummy with cpu_maxburst := mb } }
      exact ⟨a1, a2, a3, fun q => (a4 q).trans (hd q)⟩
    | some me =>
      simp only
      obtain ⟨a1, a2, a3, a4, _⟩ := sem_post_cpusem_frame (s.cpustate st).state_info_dummy
        { s with
          cpustate := upd s.cpustate st { s.cpustate st with cpustate_uptodate := false }
          pcb := upd s.pcb (s.cpustate st).state_info_dummy
            { s.pcb (s.cpustate st).state_info_dummy with cpu_maxburst := mb } }
      obtain ⟨b1, b2, b3, b4, _⟩ := sem_wait_cpusem_frame me
        (sem_post_cpusem (s.cpustate st).state_info_dummy
          { s with
            cpustate := upd s.cpustate st { s.cpustate st with cpustate_uptodate := false }
            pcb := upd s.pcb (s.cpustate st).state_info_dummy
              { s.pcb (s.cpustate st).state_info_dummy with cpu_maxburst := mb } })
      exact ⟨b1.trans a1, b2.trans a2, b3.trans a3, fun q => ((b4 q).trans (a4 q)).trans (hd q)⟩

/-- One admissible primitive, executed with inert callbacks in a state whose
iowait queue is sorted and without overdue entries: it returns, the queue is
again sorted and without overdue entries, it has grown by at most one entry,
and the clock has not gone back. -/
theorem prim_exec_invariant (cb : Callbacks) (hcb : cb.inert) (fuel : Nat) (op : Prim)
    (s : Engine) (hs : iowait_sorted s) (hp : iowait_pending s)
    (hfuel : s.sim_engine_iowait.length + 2 ≤ fuel)
    (hw : op.nonneg_wait s = true) (hsl : op.nonneg_slice s = true) :
    ∃ s1, op.exec cb fuel s = some s1 ∧ iowait_sorted s1 ∧ iowait_pending s1 ∧
      s.sim_engine_clock ≤ s1.sim_engine_clock ∧
      s1.sim_engine_iowait.length ≤ s.sim_engine_iowait.length + 1 := by
  cases op with
  | loadproc p st h =>
    obtain ⟨a, b⟩ := iowait_frame s (sim_loadproc p st h s) rfl rfl
      (sim_loadproc_deadline p st h s) hs hp
    exact ⟨_, rfl, a, b, le_refl _, Nat.le_succ _⟩
  | cpuburst self wait =>
    simp only [Prim.nonneg_wait, decide_eq_true_eq] at hw
    simp only [Prim.nonneg_slice, decide_eq_true_eq] at hsl
    obtain ⟨s1, _, e1, _⟩ :=
      sim_cpuburst_loop_idle self fuel wait s hw (le_trans (burst_fuel_le self s) hfuel)
    obtain ⟨a, b, c, d⟩ := sim_cpuburst_loop_invariant self fuel wait s s1 hsl hs hp e1
    refine ⟨s1, ?_, a, b, d, le_trans c (Nat.le_succ _)⟩
    show sim_cpuburst cb self wait fuel s = some s1
    unfold sim_cpuburst
    rw [sim_cpuburst_loop_inert cb hcb]
    exact e1
  | deviorequest self wait =>
    simp only [Prim.nonneg_wait, Bool.and_eq_true, decide_eq_true_eq] at hw
    refine ⟨_, rfl, sim_deviorequest_sorted self wait s hw.2 hs,
      sim_deviorequest_pending self wait s hw.1 hp, le_refl _, ?_⟩
    show (iowait_insert _ self s.sim_engine_iowait).length ≤ _
    rw [length_iowait_insert]
  | wait_nextintr =>
    obtain ⟨a, b, c, d⟩ := sim_wait_nextintr_invariant cb hcb s hs hp
    exact ⟨_, rfl, a, b, c, le_trans d (Nat.le_succ _)⟩
  | cpustate_save self st =>
    obtain ⟨a, b⟩ := iowait_frame s (sim_cpustate_save self st s) rfl rfl
      (sim_cpustate_save_deadline self st s) hs hp
    exact ⟨_, rfl, a, b, le_refl _, Nat.le_succ _⟩
  | cpustate_restore self st mb =>
    obtain ⟨f1, f2, _, f4⟩ := sim_cpustate_restore_frame self st mb s
    obtain ⟨a, b⟩ := iowait_frame s (sim_cpustate_restore self st mb s) f2 f1 f4 hs hp
    exact ⟨_, rfl, a, b, le_of_eq f1.symm, by rw [f2]; exact Nat.le_succ _⟩

/-- A sequence of admissible primitives from a state whose iowait queue is
sorted and without overdue entries runs to its end, and the clock after each
primitive is at least the clock before it. -/
theorem run_prims_clock_chain (cb : Callbacks) (hcb : cb.inert) (fuel : Nat) :
    ∀ (ops : List Prim) (s : Engine), iowait_sorted s → iowait_pending s →
      s.sim_engine_iowait.length + ops.length + 2 ≤ fuel →
      run_satisfies Prim.nonneg_wait cb fuel ops s = true →
      run_satisfies Prim.nonneg_slice cb fuel ops s = true →
      ∃ states, run_prims cb fuel ops s = some states ∧
        List.Chain (fun a b => a ≤ b) s.sim_engine_clock
          (states.map (fun e => e.sim_engine_clock)) := by
  intro ops
  induction ops with
  | nil =>
    intro s _ _ _ _ _
    exact ⟨[], rfl, List.Chain.nil⟩
  | cons op ops ih =>
    intro s hs hp hfuel hw hsl
    simp only [run_satisfies, Bool.and_eq_true] at hw hsl
    simp only [List.length_cons] at hfuel
    obtain ⟨s1, e, a, b, c, d⟩ :=
      prim_exec_invariant cb hcb fuel op s hs hp (by omega) hw.1 hsl.1
    have hw2 := hw.2
    have hsl2 := hsl.2
    rw [e] at hw2 hsl2
    obtain ⟨states, r, ch⟩ := ih s1 a b (by omega) hw2 hsl2
    refine ⟨s1 :: states, ?_, ?_⟩
    · simp only [run_prims, e, r, Option.map_some']
    · simp only [List.map_cons]
      exact List.Chain.cons c ch

theorem idle_callbacks_inert : idle_callbacks.inert :=
  ⟨fun _ _ => rfl, fun _ _ => rfl, fun _ _ => rfl⟩

/-- The state built by `sim_cpustate_restore` when the record is up to date
and the back-reference is consistent. -/
theorem sim_cpustate_restore_fresh (self : Option Nat) (st : Nat) (mb : Int) (s : Engine)
    (hup : (s.cpustate st).cpustate_uptodate = true)
    (hback : st = (s.pcb (s.cpustate st).state_info_dummy).cpustate_p) :
    sim_cpustate_restore self st mb s
      = (match self with
        | some me => sem_wait_cpusem me
            (sem_post_cpusem (s.cpustate st).state_info_dummy
              { s with
                cpustate := upd s.cpustate st { s.cpustate st with cpustate_uptodate := false }
                pcb := upd s.pcb (s.cpustate st).state_info_dummy
                  { s.pcb (s.cpustate st).state_info_dummy with cpu_maxburst := mb } })
        | none => sem_post_cpusem (s.cpustate st).state_info_dummy
              { s with
                cpustate := upd s.cpustate st { s.cpustate st with cpustate_uptodate := false }
                pcb := upd s.pcb (s.cpustate st).state_info_dummy
                  { s.pcb (s.cpustate st).state_info_dummy with cpu_maxburst := mb } }) := by
  have hb : (st != (s.pcb (s.cpustate st).state_info_dummy).cpustate_p) = false := by
    simpa using hback
  unfold sim_cpustate_restore
  simp only [hup, hb, Bool.not_true, Bool.or_self, Bool.false_eq_true, if_false]

theorem sim_cpuburst_iter_ioready (cb : Callbacks) (self : Nat) (wait : Int) (s : Engine)
    (n : Nat) (h : ioready_first self wait s = some n) :
    sim_cpuburst_iter cb self wait s = sim_cpuburst_ioready cb self wait n s := by
  unfold sim_cpuburst_iter
  rw [h]

theorem sim_cpuburst_iter_advance (cb : Callbacks) (self : Nat) (wait : Int) (s : Engine)
    (h : ioready_first self wait s = none) :
    sim_cpuburst_iter cb self wait s = sim_cpuburst_advance cb self wait s := by
  unfold sim_cpuburst_iter
  rw [h]

/-- The callbacks of one `sim_cpuburst` loop with inert callbacks, entered
with a non-negative slice and a sorted iowait queue without overdue entries:
the control blocks delivered are a prefix of the iowait queue, each delivered
at its own deadline, and the clocks of all callbacks are in ascending order and
not before the clock on entry. -/
theorem sim_cpuburst_loop_events (self : Nat) (fuel : Nat) :
    ∀ (wait : Int) (s s' : Engine), 0 ≤ (s.pcb self).cpu_maxburst → iowait_sorted s →
      iowait_pending s → sim_cpuburst_loop idle_callbacks self fuel wait s = some s' →
      ∃ evs delivered, s'.trace = s.trace ++ evs ∧
        s.sim_engine_iowait = delivered ++ s'.sim_engine_iowait ∧
        ioready_calls evs
          = delivered.map (fun p => ((s.pcb p).proc_cb_p, (s.pcb p).ioready_clock)) ∧
        (∀ c ∈ callback_clocks evs, s.sim_engine_clock ≤ c) ∧
        (callback_clocks evs).Pairwise (fun a b => a ≤ b) := by
  induction fuel with
  | zero =>
    intro wait s s' _ _ _ h
    simp only [sim_cpuburst_loop] at h
    split at h
    · simp at h
    · simp only [Option.some.injEq] at h
      subst h
      exact ⟨[], [], by simp, by simp, rfl, by simp [callback_clocks],
        by simp [callback_clocks]⟩
  | succ fuel ih =>
    intro wait s s' hslice hs hp h
    simp only [sim_cpuburst_loop] at h
    split at h
    swap
    · simp only [Option.some.injEq] at h
      subst h
      exact ⟨[], [], by simp, by simp, rfl, by simp [callback_clocks],
        by simp [callback_clocks]⟩
    rename_i hw
    obtain ⟨i1, i2, i3, _, _⟩ := sim_cpuburst_iter_invariant self wait s hslice hs hp
    obtain ⟨evs1, del1, j1, j2, j3, j4, j5⟩ := ih _ _ s' i3 i1 (i2 hw) h
    cases hio : ioready_first self wait s with
    | some n =>
      rw [sim_cpuburst_iter_ioready _ _ _ _ n hio] at j1 j2 j3 j4
      obtain ⟨rest, hq, _⟩ := ioready_first_some self wait s n hio
      obtain ⟨_, h2, h3, _, h5, _, h7, h8⟩ := sim_cpuburst_ioready_idle self wait n s
      rw [hq, List.erase_cons_head] at h3
      have hn : s.sim_engine_clock ≤ (s.pcb n).ioready_clock :=
        hp n (by rw [hq]; exact List.mem_cons_self _ _)
      refine ⟨Event.devioready (s.pcb n).proc_cb_p (s.pcb n).ioready_clock :: evs1,
        n :: del1, ?_, ?_, ?_, ?_, ?_⟩
      · rw [j1, h5]; simp
      · rw [hq, List.cons_append, ← j2, h3]
      · simp only [ioready_calls, List.map_cons, j3, h7, h8]
      · intro c hc
        simp only [callback_clocks, List.mem_cons] at hc
        rcases hc with rfl | hc
        · exact hn
        · have := j4 c hc
          rw [h2] at this
          exact le_trans hn this
      · simp only [callback_clocks]
        refine List.Pairwise.cons ?_ j5
        intro c hc
        have := j4 c hc
        rwa [h2] at this
    | none =>
      rw [sim_cpuburst_iter_advance _ _ _ _ hio] at j1 j2 j3 j4
      by_cases hr : 0 < (s.pcb self).cpu_maxburst ∧ (s.pcb self).cpu_maxburst < wait
      · obtain ⟨_, h2, h3, _, h5, _, h7, h8⟩ := sim_cpuburst_advance_runout_idle self wait s hr
        refine ⟨Event.cpurunout (s.pcb self).proc_cb_p
            (s.sim_engine_clock + (s.pcb self).cpu_maxburst) :: evs1, del1, ?_, ?_, ?_, ?_, ?_⟩
        · rw [j1, h5]; simp
        · rw [← h3]; exact j2
        · simp only [ioready_calls, j3, h7, h8]
        · intro c hc
          simp only [callback_clocks, List.mem_cons] at hc
          rcases hc with rfl | hc
          · omega
          · have := j4 c hc
            rw [h2] at this
            omega
        · simp only [callback_clocks]
          refine List.Pairwise.cons ?_ j5
          intro c hc
          have := j4 c hc
          rwa [h2] at this
      · obtain ⟨_, h2, h3, _, h5, _, h7, h8⟩ :=
          sim_cpuburst_advance_complete idle_callbacks self wait s hr
        refine ⟨evs1, del1, ?_, ?_, ?_, ?_, j5⟩
        · rw [j1, h5]
        · rw [← h3]; exact j2
        · simp only [j3, h7, h8]
        · intro c hc
          have := j4 c hc
          rw [h2] at this
          omega

/-- A loop of `sim_cpuburst` entered with a negative slice, `wait > 0` and no
overdue entry in iowait: whenever it returns, no callback was invoked and the
iowait queue is the same. -/
theorem sim_cpuburst_loop_negative_slice (self : Nat) (fuel : Nat) (wait : Int)
    (s s' : Engine) (hslice : (s.pcb self).cpu_maxburst < 0) (hw : 0 < wait)
    (hp : iowait_pending s)
    (h : sim_cpuburst_loop idle_callbacks self fuel wait s = some s') :
    s'.trace = s.trace ∧ s'.sim_engine_iowait = s.sim_engine_iowait := by
  cases fuel with
  | zero => simp [sim_cpuburst_loop, hw] at h
  | succ fuel =>
    have hio : ioready_first self wait s = none := by
      unfold ioready_first
      split
      · rename_i n rest hq
        have hn := hp n (by rw [hq]; exact List.mem_cons_self _ _)
        have hb : burst_budget (s.pcb self).cpu_maxburst wait = (s.pcb self).cpu_maxburst := by
          unfold burst_budget
          rw [if_neg (by omega)]
        rw [hb, if_neg (by omega)]
      · rfl
    have hr : ¬ (0 < (s.pcb self).cpu_maxburst ∧ (s.pcb self).cpu_maxburst < wait) := by omega
    obtain ⟨h1, _, h3, _, h5, _⟩ :=
      sim_cpuburst_advance_complete idle_callbacks self wait s hr
    simp only [sim_cpuburst_loop, if_pos hw, sim_cpuburst_iter_advance _ _ _ _ hio] at h
    rw [h1, sim_cpuburst_loop_done _ _ _ _ _ (le_refl _)] at h
    simp only [Option.some.injEq] at h
    subst h
    exact ⟨h5, h3⟩

/-- The invariant behind the all-finished semaphore, from any state: the live
count is not negative, it is zero when nothing was loaded so far, and the
counter of `sim_engine_running` is 1 when the count is zero and something was
loaded, 0 otherwise. -/
theorem run_lifecycle_invariant (cb : Callbacks) (hcb : cb.inert) :
    ∀ (evs : List Lifecycle) (s : Engine) (loaded : Bool),
      0 ≤ s.sim_engine_procs_count →
      (loaded = false → s.sim_engine_procs_count = 0) →
      s.sim_engine_running = (if s.sim_engine_procs_count = 0 ∧ loaded = true then 1 else 0) →
      lifecycle_ok cb evs s = true →
      0 ≤ (run_lifecycle cb evs s).sim_engine_procs_count ∧
      (run_lifecycle cb evs s).sim_engine_running
        = (if (run_lifecycle cb evs s).sim_engine_procs_count = 0 ∧
            (loaded || ever_loaded evs) = true then 1 else 0) := by
  intro evs
  induction evs with
  | nil =>
    intro s loaded h0 _ hr _
    simp only [run_lifecycle, ever_loaded, Bool.or_false]
    exact ⟨h0, hr⟩
  | cons ev evs ih =>
    intro s loaded h0 hl hr hok
    cases ev with
    | load p st h =>
      simp only [lifecycle_ok] at hok
      have hc : (sim_loadproc p st h s).sim_engine_procs_count
          = s.sim_engine_procs_count + 1 := rfl
      have hrun : (sim_loadproc p st h s).sim_engine_running = s.sim_engine_running - 1 := rfl
      have hr1 : (sim_loadproc p st h s).sim_engine_running
          = (if (sim_loadproc p st h s).sim_engine_procs_count = 0 ∧ true = true then 1
            else 0) := by
        have hle : s.sim_engine_running ≤ 1 := by
          rw [hr]
          split <;> omega
        rw [hrun, hc, if_neg (by omega)]
        omega
      obtain ⟨a, b⟩ := ih (sim_loadproc p st h s) true (by rw [hc]; omega) (by simp) hr1 hok
      refine ⟨a, ?_⟩
      simp only [run_lifecycle, Lifecycle.exec, ever_loaded, Bool.or_true]
      simpa using b
    | finish self =>
      simp only [lifecycle_ok, Bool.and_eq_true, decide_eq_true_eq] at hok
      have hval : sim_loadproc2_exit cb self s =
          { s with
            sim_engine_active := s.sim_engine_active.erase self
            sim_engine_procs_count := s.sim_engine_procs_count - 1
            sim_engine_running :=
              if s.sim_engine_procs_count - 1 < 1 then s.sim_engine_running + 1
              else s.sim_engine_running
            trace := s.trace ++ [Event.procexit (s.pcb self).proc_cb_p s.sim_engine_clock] } := by
        unfold sim_loadproc2_exit
        simp only [hcb.2.2]
      have hc : (sim_loadproc2_exit cb self s).sim_engine_procs_count
          = s.sim_engine_procs_count - 1 := by rw [hval]
      have hrun : (sim_loadproc2_exit cb self s).sim_engine_running
          = (if s.sim_engine_procs_count - 1 < 1 then s.sim_engine_running + 1
            else s.sim_engine_running) := by rw [hval]
      have hloaded : loaded = true := by
        cases loaded with
        | true => rfl
        | false => have := hl rfl; omega
      have hr0 : s.sim_engine_running = 0 := by
        rw [hr, if_neg (by omega)]
      have hr1 : (sim_loadproc2_exit cb self s).sim_engine_running
          = (if (sim_loadproc2_exit cb self s).sim_engine_procs_count = 0 ∧ loaded = true
            then 1 else 0) := by
        rw [hrun, hc, hr0]
        by_cases h1 : s.sim_engine_procs_count - 1 < 1
        · rw [if_pos h1, if_pos ⟨by omega, hloaded⟩]
        · rw [if_neg h1, if_neg (by omega)]
      obtain ⟨a, b⟩ := ih (sim_loadproc2_exit cb self s) loaded (by rw [hc]; omega)
        (by intro hf; rw [hloaded] at hf; cases hf) hr1 hok.2
      refine ⟨a, ?_⟩
      simp only [run_lifecycle, Lifecycle.exec, ever_loaded]
      exact b

/-- What one loop iteration of `sim_cpuburst` with inert callbacks achieves:
it removes one control block from iowait (a positive slice
stays positive, another stays as it is), or it zeroes a positive slice and
leaves iowait alone, or it sets `wait` to 0. -/
theorem sim_cpuburst_iter_progress (self : Nat) (wait : Int) (s : Engine) :
    ((sim_cpuburst_iter idle_callbacks self wait s).2.sim_engine_iowait.length + 1
        = s.sim_engine_iowait.length ∧
      (0 < ((sim_cpuburst_iter idle_callbacks self wait s).2.pcb self).cpu_maxburst ↔
        0 < (s.pcb self).cpu_maxburst)) ∨
    (0 < (s.pcb self).cpu_maxburst ∧
      ((sim_cpuburst_iter idle_callbacks self wait s).2.pcb self).cpu_maxburst = 0 ∧
      (sim_cpuburst_iter idle_callbacks self wait s).2.sim_engine_iowait
        = s.sim_engine_iowait) ∨
    (sim_cpuburst_iter idle_callbacks self wait s).1 = 0 := by
  cases hio : ioready_first self wait s with
  | some n =>
    rw [sim_cpuburst_iter_ioready _ _ _ _ n hio]
    obtain ⟨rest, hq, hlt⟩ := ioready_first_some self wait s n hio
    obtain ⟨_, _, h3, _, _, h6, _, _⟩ := sim_cpuburst_ioready_idle self wait n s
    left
    rw [h3, h6, hq, List.erase_cons_head]
    refine ⟨rfl, ?_⟩
    by_cases hs : 0 < (s.pcb self).cpu_maxburst
    · have := burst_budget_le_slice _ wait hs
      rw [if_pos hs]
      constructor
      · intro _; exact hs
      · intro _; omega
    · rw [if_neg hs]
  | none =>
    rw [sim_cpuburst_iter_advance _ _ _ _ hio]
    by_cases hr : 0 < (s.pcb self).cpu_maxburst ∧ (s.pcb self).cpu_maxburst < wait
    · obtain ⟨_, _, h3, _, _, h6, _, _⟩ := sim_cpuburst_advance_runout_idle self wait s hr
      right; left
      exact ⟨hr.1, h6, h3⟩
    · right; right
      exact (sim_cpuburst_advance_complete idle_callbacks self wait s hr).1

/-- The loop of `sim_cpuburst` with inert callbacks exits after some number
`k` of iterations that is at most `burst_fuel`: the guard `wait > 0` holds
before each of the first `k` iterations and fails after them, and the loop
run with at least `k` units of fuel returns the state reached then. -/
theorem sim_cpuburst_loop_exit (self : Nat) (n : Nat) :
    ∀ (wait : Int) (s : Engine), burst_fuel self s ≤ n →
      ∃ k, k ≤ n ∧
        (∀ j, j < k → 0 < (sim_cpuburst_iterate idle_callbacks self j wait s).1) ∧
        (sim_cpuburst_iterate idle_callbacks self k wait s).1 ≤ 0 ∧
        ∀ fuel, k ≤ fuel → sim_cpuburst_loop idle_callbacks self fuel wait s
          = some (sim_cpuburst_iterate idle_callbacks self k wait s).2 := by
  induction n with
  | zero =>
    intro wait s hf
    unfold burst_fuel at hf
    split at hf <;> omega
  | succ n ih =>
    intro wait s hf
    by_cases hw : 0 < wait
    swap
    · refine ⟨0, Nat.zero_le _, fun j hj => absurd hj (Nat.not_lt_zero j), not_lt.1 hw, ?_⟩
      intro fuel _
      exact sim_cpuburst_loop_done _ _ _ _ _ (not_lt.1 hw)
    · have step : ∀ k1, k1 ≤ n →
          (∀ j, j < k1 → 0 < (sim_cpuburst_iterate idle_callbacks self j
            (sim_cpuburst_iter idle_callbacks self wait s).1
            (sim_cpuburst_iter idle_callbacks self wait s).2).1) →
          (sim_cpuburst_iterate idle_callbacks self k1
            (sim_cpuburst_iter idle_callbacks self wait s).1
            (sim_cpuburst_iter idle_callbacks self wait s).2).1 ≤ 0 →
          (∀ fuel, k1 ≤ fuel → sim_cpuburst_loop idle_callbacks self fuel
              (sim_cpuburst_iter idle_callbacks self wait s).1
              (sim_cpuburst_iter idle_callbacks self wait s).2
            = some (sim_cpuburst_iterate idle_callbacks self k1
              (sim_cpuburst_iter idle_callbacks self wait s).1
              (sim_cpuburst_iter idle_callbacks self wait s).2).2) →
          ∃ k, k ≤ n + 1 ∧
            (∀ j, j < k → 0 < (sim_cpuburst_iterate idle_callbacks self j wait s).1) ∧
            (sim_cpuburst_iterate idle_callbacks self k wait s).1 ≤ 0 ∧
            ∀ fuel, k ≤ fuel → sim_cpuburst_loop idle_callbacks self fuel wait s
              = some (sim_cpuburst_iterate idle_callbacks self k wait s).2 := by
        intro k1 hk1 hpos hexit hloop
        refine ⟨k1 + 1, Nat.succ_le_succ hk1, ?_, hexit, ?_⟩
        · intro j hj
          cases j with
          | zero => exact hw
          | succ j => exact hpos j (Nat.lt_of_succ_lt_succ hj)
        · intro fuel hfuel
          cases fuel with
          | zero => omega
          | succ fuel =>
            simp only [sim_cpuburst_loop, if_pos hw]
            exact hloop fuel (Nat.le_of_succ_le_succ hfuel)
      rcases sim_cpuburst_iter_progress self wait s with ⟨h1, h2⟩ | ⟨h1, h2, h3⟩ | h1
      · have hf1 : burst_fuel self (sim_cpuburst_iter idle_callbacks self wait s).2 ≤ n := by
          unfold burst_fuel at hf ⊢
          by_cases hs : 0 < (s.pcb self).cpu_maxburst
          · rw [if_pos hs] at hf
            rw [if_pos (h2.2 hs)]
            omega
          · rw [if_neg hs] at hf
            rw [if_neg (fun h => hs (h2.1 h))]
            omega
        obtain ⟨k1, a, b, c, d⟩ := ih _ _ hf1
        exact step k1 a b c d
      · have hf1 : burst_fuel self (sim_cpuburst_iter idle_callbacks self wait s).2 ≤ n := by
          unfold burst_fuel at hf ⊢
          rw [if_pos h1] at hf
          rw [h2, h3, if_neg (lt_irrefl _)]
          omega
        obtain ⟨k1, a, b, c, d⟩ := ih _ _ hf1
        exact step k1 a b c d
      · apply step 0 (Nat.zero_le _)
        · intro j hj
          exact absurd hj (Nat.not_lt_zero j)
        · show (sim_cpuburst_iter idle_callbacks self wait s).1 ≤ 0
          rw [h1]
        · intro fuel _
          rw [h1]
          exact sim_cpuburst_loop_done _ _ _ _ _ (le_refl _)

theorem sim_cpuburst_iterate_inert (cb : Callbacks) (hcb : cb.inert) (self : Nat) (k : Nat) :
    ∀ (wait : Int) (s : Engine),
      sim_cpuburst_iterate cb self k wait s = sim_cpuburst_iterate idle_callbacks self k wait s := by
  induction k with
  | zero => intro wait s; rfl
  | succ k ih =>
    intro wait s
    simp only [sim_cpuburst_iterate, sim_cpuburst_iter_inert cb hcb, ih]

theorem iowait_insert_perm (pcb : Nat → sim_engine_proc_cb) (self : Nat) (l : List Nat) :
    (iowait_insert pcb self l).Perm (self :: l) := by
  obtain ⟨pre, post, h1, h2, _, _⟩ := iowait_insert_split pcb self l
  rw [h2]
  conv_rhs => rw [h1]
  exact List.perm_middle

/-- The request `sim_deviorequest` by a process queued in active moves it to
iowait: the two queues together hold the same control blocks as before. -/
theorem sim_deviorequest_perm (self : Nat) (wait : Int) (s : Engine)
    (hself : self ∈ s.sim_engine_active) :
    ((sim_deviorequest self wait s).sim_engine_active
        ++ (sim_deviorequest self wait s).sim_engine_iowait).Perm
      (s.sim_engine_active ++ s.sim_engine_iowait) := by
  show (s.sim_engine_active.erase self ++ iowait_insert _ self s.sim_engine_iowait).Perm _
  have h1 := List.Perm.append_left (s.sim_engine_active.erase self)
    (iowait_insert_perm
      (upd s.pcb self { s.pcb self with ioready_clock := s.sim_engine_clock + wait }) self
      s.sim_engine_iowait)
  have h2 : (s.sim_engine_active.erase self ++ self :: s.sim_engine_iowait).Perm
      (self :: (s.sim_engine_active.erase self ++ s.sim_engine_iowait)) := List.perm_middle
  have h3 : (self :: s.sim_engine_active.erase self ++ s.sim_engine_iowait).Perm
      (s.sim_engine_active ++ s.sim_engine_iowait) :=
    List.Perm.append_right _ (List.perm_cons_erase hself).symm
  exact (h1.trans h2).trans h3

/-- The fast-forward `sim_wait_nextintr` with inert callbacks moves the head of
iowait to the tail of active: the concatenation of active and iowait is the
same list as before. -/
theorem sim_wait_nextintr_queues (cb : Callbacks) (hcb : cb.inert) (s : Engine) :
    (sim_wait_nextintr cb s).sim_engine_active ++ (sim_wait_nextintr cb s).sim_engine_iowait
      = s.sim_engine_active ++ s.sim_engine_iowait := by
  cases hq : s.sim_engine_iowait with
  | nil =>
    have e : sim_wait_nextintr cb s = s := by
      unfold sim_wait_nextintr
      rw [hq]
    rw [e, hq]
  | cons n rest =>
    have e : sim_wait_nextintr cb s =
        { s with
          sim_engine_clock := (s.pcb n).ioready_clock
          sim_engine_iowait := rest
          sim_engine_active := s.sim_engine_active ++ [n]
          trace := s.trace ++
            [Event.devioready (s.pcb n).proc_cb_p (s.pcb n).ioready_clock] } := by
      unfold sim_wait_nextintr
      rw [hq]
      simp only [List.erase_cons_head, hcb.1]
    rw [e]
    simp

/-- One loop iteration of `sim_cpuburst` with inert callbacks leaves the
concatenation of active and iowait the same list. -/
theorem sim_cpuburst_iter_queues (self : Nat) (wait : Int) (s : Engine) :
    (sim_cpuburst_iter idle_callbacks self wait s).2.sim_engine_active
        ++ (sim_cpuburst_iter idle_callbacks self wait s).2.sim_engine_iowait
      = s.sim_engine_active ++ s.sim_engine_iowait := by
  cases hio : ioready_first self wait s with
  | some n =>
    rw [sim_cpuburst_iter_ioready _ _ _ _ n hio]
    obtain ⟨rest, hq, _⟩ := ioready_first_some self wait s n hio
    obtain ⟨_, _, h3, h4, _⟩ := sim_cpuburst_ioready_idle self wait n s
    rw [h3, h4, hq, List.erase_cons_head]
    simp
  | none =>
    rw [sim_cpuburst_iter_advance _ _ _ _ hio]
    by_cases hr : 0 < (s.pcb self).cpu_maxburst ∧ (s.pcb self).cpu_maxburst < wait
    · obtain ⟨_, _, h3, h4, _⟩ := sim_cpuburst_advance_runout_idle self wait s hr
      rw [h3, h4]
    · obtain ⟨_, _, h3, h4, _⟩ := sim_cpuburst_advance_complete idle_callbacks self wait s hr
      rw [h3, h4]

/-- The result of the scan of `sched`: either no queued process has a priority
below the starting `min_priority` and the pair is unchanged, or the pair names
the first queued process of least priority value, which is below the starting
`min_priority`. -/
theorem sched_scan_spec (procs : Nat → sim_proc) (l : List Nat) :
    ∀ (m : Int) (h : Option Nat),
      ((∀ x ∈ l, m ≤ (procs x).priority) ∧ sched_scan procs l (m, h) = (m, h)) ∨
      ∃ q pre post, l = pre ++ q :: post ∧ (procs q).priority < m ∧
        (∀ x ∈ pre, (procs q).priority < (procs x).priority) ∧
        (∀ x ∈ post, (procs q).priority ≤ (procs x).priority) ∧
        sched_scan procs l (m, h) = ((procs q).priority, some q) := by
  induction l with
  | nil =>
    intro m h
    left
    exact ⟨by simp, rfl⟩
  | cons p rest ih =>
    intro m h
    by_cases hp : (procs p).priority < m
    · have e : sched_scan procs (p :: rest) (m, h)
          = sched_scan procs rest ((procs p).priority, some p) := by
        simp only [sched_scan, if_pos hp]
      right
      rcases ih (procs p).priority (some p) with ⟨h1, h2⟩ | ⟨q, pre, post, h1, h2, h3, h4, h5⟩
      · exact ⟨p, [], rest, rfl, hp, by simp, h1, by rw [e, h2]⟩
      · refine ⟨q, p :: pre, post, by rw [h1]; rfl, lt_trans h2 hp, ?_, h4, by rw [e, h5]⟩
        intro x hx
        rcases List.mem_cons.1 hx with rfl | hx
        · exact h2
        · exact h3 x hx
    · have e : sched_scan procs (p :: rest) (m, h) = sched_scan procs rest (m, h) := by
        simp only [sched_scan, if_neg hp]
      rcases ih m h with ⟨h1, h2⟩ | ⟨q, pre, post, h1, h2, h3, h4, h5⟩
      · left
        refine ⟨?_, by rw [e, h2]⟩
        intro x hx
        rcases List.mem_cons.1 hx with rfl | hx
        · exact not_lt.1 hp
        · exact h1 x hx
      · right
        refine ⟨q, p :: pre, post, by rw [h1]; rfl, h2, ?_, h4, by rw [e, h5]⟩
        intro x hx
        rcases List.mem_cons.1 hx with rfl | hx
        · exact lt_of_lt_of_le h2 (not_lt.1 hp)
        · exact h3 x hx

/-- The first step of `sched` returns when there is no active process or the
caller is a simulated process; the ready queue gets the active process at its
tail, `activeproc` is cleared and no priority changes. -/
theorem sched_requeue_spec (self : Option Nat) (st : Policy)
    (hself : st.activeproc = none ∨ self ≠ none) :
    ∃ st1, sched_requeue self st = some st1 ∧
      st1.ready_queue = (match st.activeproc with
        | some a => st.ready_queue ++ [a]
        | none => st.ready_queue) ∧
      st1.activeproc = none ∧
      st1.blocked_queue = st.blocked_queue ∧
      (∀ p, (st1.procs p).priority = (st.procs p).priority) := by
  unfold sched_requeue
  cases ha : st.activeproc with
  | none => exact ⟨st, rfl, rfl, ha, rfl, fun _ => rfl⟩
  | some a =>
    cases self with
    | none =>
      rcases hself with h | h
      · rw [ha] at h; cases h
      · exact absurd rfl h
    | some me =>
      refine ⟨_, rfl, rfl, rfl, rfl, ?_⟩
      intro p
      show (upd st.procs a _ p).priority = _
      by_cases hp : p = a
      · subst hp; rw [upd_same]
      · rw [upd_other _ _ _ _ hp]

/-! ## The I/O request: `sim_deviorequest` (C1, C2) -/

/-- C1: if the iowait queue is sorted by ascending `ioready_clock` and the
running process `self` (which, being the caller, is not itself queued in
iowait) calls `sim_deviorequest(wait)` with any `wait`, the iowait queue is
sorted by ascending `ioready_clock` afterwards. -/
theorem sim_deviorequest_keeps_iowait_sorted (self : Nat) (wait : Int) (s : Engine)
    (hself : self ∉ s.sim_engine_iowait) (hs : iowait_sorted s) :
    iowait_sorted (sim_deviorequest self wait s) := by
  exact sim_deviorequest_sorted self wait s hself hs

theorem sim_deviorequest_keeps_iowait_sorted_witness :
    (3 ∉ deviorequest_state.sim_engine_iowait ∧ iowait_sorted deviorequest_state) ∧
      iowait_sorted (sim_deviorequest 3 5 deviorequest_state) :=
  ⟨⟨by decide, by decide⟩,
    sim_deviorequest_keeps_iowait_sorted 3 5 deviorequest_state (by decide) (by decide)⟩

/-- C2: `sim_deviorequest(wait)` called by the running process `self` (not
queued in iowait) sets the caller's `ioready_clock` to clock + wait, removes
the caller from active and leaves the clock and every other control block
alone; the iowait queue `pre ++ post` becomes `pre ++ self :: post`, where
every entry of `pre` has a deadline at most the caller's and the first entry
of `post`, if any, has a strictly greater one (when `post` is empty the caller
is at the tail).  In a sorted queue every entry of `post` then has a strictly
greater deadline, so the caller stands after all entries with an equal
deadline.  The other entries keep their relative order. -/
theorem sim_deviorequest_inserts_before_first_greater (self : Nat) (wait : Int) (s : Engine)
    (hself : self ∉ s.sim_engine_iowait) :
    ((sim_deviorequest self wait s).pcb self).ioready_clock = s.sim_engine_clock + wait ∧
    (sim_deviorequest self wait s).sim_engine_active = s.sim_engine_active.erase self ∧
    (sim_deviorequest self wait s).sim_engine_clock = s.sim_engine_clock ∧
    (∀ p, p ≠ self → (sim_deviorequest self wait s).pcb p = s.pcb p) ∧
    ∃ pre post, s.sim_engine_iowait = pre ++ post ∧
      (sim_deviorequest self wait s).sim_engine_iowait = pre ++ self :: post ∧
      (∀ e ∈ pre, (s.pcb e).ioready_clock ≤ s.sim_engine_clock + wait) ∧
      (∀ e, post.head? = some e → s.sim_engine_clock + wait < (s.pcb e).ioready_clock) ∧
      (iowait_sorted s → ∀ e ∈ post, s.sim_engine_clock + wait < (s.pcb e).ioready_clock) := by
  have hd : ∀ pcb0 : sim_engine_proc_cb, ∀ p ∈ s.sim_engine_iowait,
      (upd s.pcb self pcb0 p) = s.pcb p := by
    intro pcb0 p hp
    exact upd_other _ _ _ _ (fun h => hself (h ▸ hp))
  refine ⟨by simp [sim_deviorequest, upd_same], rfl, rfl, ?_, ?_⟩
  · intro p hp
    exact upd_other _ _ _ _ hp
  · obtain ⟨pre, post, h1, h2, h3, h4⟩ := iowait_insert_split
      (upd s.pcb self { s.pcb self with ioready_clock := s.sim_engine_clock + wait }) self
      s.sim_engine_iowait
    simp only [upd_same] at h3 h4
    have hpost : ∀ e, post.head? = some e →
        s.sim_engine_clock + wait < (s.pcb e).ioready_clock := by
      intro e he
      have hmem : e ∈ s.sim_engine_iowait := by
        rw [h1]
        exact List.mem_append_right _ (List.mem_of_mem_head? he)
      have := h4 e he
      rwa [hd _ e hmem] at this
    refine ⟨pre, post, h1, h2, ?_, hpost, ?_⟩
    · intro e he
      have hmem : e ∈ s.sim_engine_iowait := by
        rw [h1]
        exact List.mem_append_left _ he
      have := h3 e he
      rwa [hd _ e hmem] at this
    · intro hsorted e he
      unfold iowait_sorted at hsorted
      rw [h1] at hsorted
      have hsp := (List.pairwise_append.1 hsorted).2.1
      cases post with
      | nil => simp at he
      | cons x rest =>
        have hx := hpost x rfl
        rcases List.mem_cons.1 he with rfl | he
        · exact hx
        · exact lt_of_lt_of_le hx ((List.pairwise_cons.1 hsp).1 e he)

theorem sim_deviorequest_inserts_before_first_greater_witness :
    3 ∉ deviorequest_state.sim_engine_iowait ∧
    (((sim_deviorequest 3 5 deviorequest_state).pcb 3).ioready_clock =
        deviorequest_state.sim_engine_clock + 5 ∧
      (sim_deviorequest 3 5 deviorequest_state).sim_engine_active =
        deviorequest_state.sim_engine_active.erase 3 ∧
      (sim_deviorequest 3 5 deviorequest_state).sim_engine_clock =
        deviorequest_state.sim_engine_clock ∧
      (∀ p, p ≠ 3 → (sim_deviorequest 3 5 deviorequest_state).pcb p = deviorequest_state.pcb p) ∧
      ∃ pre post, deviorequest_state.sim_engine_iowait = pre ++ post ∧
        (sim_deviorequest 3 5 deviorequest_state).sim_engine_iowait = pre ++ 3 :: post ∧
        (∀ e ∈ pre, (deviorequest_state.pcb e).ioready_clock ≤
          deviorequest_state.sim_engine_clock + 5) ∧
        (∀ e, post.head? = some e →
          deviorequest_state.sim_engine_clock + 5 < (deviorequest_state.pcb e).ioready_clock) ∧
        (iowait_sorted deviorequest_state → ∀ e ∈ post,
          deviorequest_state.sim_engine_clock + 5 < (deviorequest_state.pcb e).ioready_clock)) :=
  ⟨by decide, sim_deviorequest_inserts_before_first_greater 3 5 deviorequest_state (by decide)⟩

/-- With clock 5 and deadlines 10 (address 1) and 20 (address 2) queued, a
request of 5 by the process at address 3 gets deadline 10 and is queued after
the entry that already has deadline 10: ties are first in, first out. -/
theorem sim_deviorequest_tie_example :
    (sim_deviorequest 3 5 deviorequest_state).sim_engine_iowait = [1, 3, 2] ∧
    (sim_deviorequest 3 5 deviorequest_state).sim_engine_active = [] := by
  decide

/-! ## The CPU burst and the clock (C3 to C7) -/

/-- C3: a call `sim_cpuburst(n)` with `n >= 0`, started at clock `C` and with
callbacks that leave the engine state unchanged, returns (the loop needs at
most length(iowait) + 2 iterations).  If the slice-runout callback was not
invoked during the call the clock is `C + n` on return; otherwise the clock is
`C + n'` for some `0 <= n' <= n` and the slice-runout callback was invoked
exactly once, with the caller's opaque handle.  (The assumptions of the claim
on the iowait queue are not needed.) -/
theorem sim_cpuburst_clock_on_return (cb : Callbacks) (hcb : cb.inert) (self : Nat) (n : Int)
    (hn : 0 ≤ n) (s : Engine) (fuel : Nat) (hfuel : s.sim_engine_iowait.length + 2 ≤ fuel) :
    ∃ s' evs, sim_cpuburst cb self n fuel s = some s' ∧ s'.trace = s.trace ++ evs ∧
      (runout_args evs = [] → s'.sim_engine_clock = s.sim_engine_clock + n) ∧
      (runout_args evs ≠ [] →
        (∃ n', 0 ≤ n' ∧ n' ≤ n ∧ s'.sim_engine_clock = s.sim_engine_clock + n') ∧
        runout_args evs = [(s.pcb self).proc_cb_p]) := by
  obtain ⟨s', evs, e1, e2, e3, e4, _, _⟩ :=
    sim_cpuburst_loop_idle self fuel n s hn (le_trans (burst_fuel_le self s) hfuel)
  refine ⟨s', evs, ?_, e3, fun _ => e2, ?_⟩
  · unfold sim_cpuburst
    rw [sim_cpuburst_loop_inert cb hcb]
    exact e1
  · intro hne
    refine ⟨⟨n, hn, le_refl _, e2⟩, ?_⟩
    rw [e4] at hne ⊢
    split at hne
    · rename_i h
      rw [if_pos h]
    · exact absurd rfl hne

theorem sim_cpuburst_clock_on_return_witness :
    (idle_callbacks.inert ∧ (0 : Int) ≤ 10 ∧ burst_state.sim_engine_iowait.length + 2 ≤ 4) ∧
    ∃ s' evs, sim_cpuburst idle_callbacks 3 10 4 burst_state = some s' ∧
      s'.trace = burst_state.trace ++ evs ∧
      (runout_args evs = [] → s'.sim_engine_clock = burst_state.sim_engine_clock + 10) ∧
      (runout_args evs ≠ [] →
        (∃ n', 0 ≤ n' ∧ n' ≤ 10 ∧ s'.sim_engine_clock = burst_state.sim_engine_clock + n') ∧
        runout_args evs = [(burst_state.pcb 3).proc_cb_p]) :=
  ⟨⟨idle_callbacks_inert, by decide, by decide⟩,
    sim_cpuburst_clock_on_return idle_callbacks idle_callbacks_inert 3 10 (by decide)
      burst_state 4 (by decide)⟩

/-- The run behind the witness: slice 4 runs out at clock 9, the completion
with deadline 10 is delivered, and the burst of 10 ends at clock 15. -/
theorem sim_cpuburst_example :
    (sim_cpuburst idle_callbacks 3 10 4 burst_state).map
        (fun s => (s.sim_engine_clock, s.trace, s.sim_engine_iowait, (s.pcb 3).cpu_maxburst))
      = some (15, [Event.cpurunout 103 9, Event.devioready 101 10], [2], 0) := by
  decide

/-- C4 (amended): from the initial state (clock 0, empty queues), along every
sequence of the primitives `sim_loadproc`, `sim_cpuburst`, `sim_deviorequest`,
`sim_wait_nextintr`, `sim_cpustate_save` and `sim_cpustate_restore` in which
the wait arguments are non-negative, `sim_deviorequest` is called by a process
not queued in iowait, and every `sim_cpuburst` is entered with a slice
`cpu_maxburst >= 0`, with callbacks that leave the engine state unchanged,
every primitive returns and the value of `sim_engine_getclock` after each
primitive is at least its value before it. -/
theorem clock_monotone_along_runs (cb : Callbacks) (hcb : cb.inert)
    (pcb0 : Nat → sim_engine_proc_cb) (cpustate0 : Nat → sim_cpustate) (ops : List Prim)
    (fuel : Nat) (hfuel : ops.length + 2 ≤ fuel)
    (hw : run_satisfies Prim.nonneg_wait cb fuel ops (sim_engine_init pcb0 cpustate0) = true)
    (hsl : run_satisfies Prim.nonneg_slice cb fuel ops (sim_engine_init pcb0 cpustate0) = true) :
    ∃ states, run_prims cb fuel ops (sim_engine_init pcb0 cpustate0) = some states ∧
      List.Chain (fun a b => a ≤ b) (sim_engine_getclock (sim_engine_init pcb0 cpustate0))
        (states.map sim_engine_getclock) := by
  have hs : iowait_sorted (sim_engine_init pcb0 cpustate0) := List.Pairwise.nil
  have hp : iowait_pending (sim_engine_init pcb0 cpustate0) := fun p hpm => by
    simp [sim_engine_init] at hpm
  exact run_prims_clock_chain cb hcb fuel ops (sim_engine_init pcb0 cpustate0) hs hp
    (by simp only [sim_engine_init, List.length_nil]; omega) hw hsl

theorem clock_monotone_along_runs_witness :
    (idle_callbacks.inert ∧ (handover_run 3).length + 2 ≤ 10 ∧
      run_satisfies Prim.nonneg_wait idle_callbacks 10 (handover_run 3)
        (sim_engine_init (fun _ => default) (fun _ => default)) = true ∧
      run_satisfies Prim.nonneg_slice idle_callbacks 10 (handover_run 3)
        (sim_engine_init (fun _ => default) (fun _ => default)) = true) ∧
    ∃ states, run_prims idle_callbacks 10 (handover_run 3)
        (sim_engine_init (fun _ => default) (fun _ => default)) = some states ∧
      List.Chain (fun a b => a ≤ b)
        (sim_engine_getclock (sim_engine_init (fun _ => default) (fun _ => default)))
        (states.map sim_engine_getclock) :=
  ⟨⟨idle_callbacks_inert, by decide, by decide, by decide⟩,
    clock_monotone_along_runs idle_callbacks idle_callbacks_inert (fun _ => default)
      (fun _ => default) (handover_run 3) 10 (by decide) (by decide) (by decide)⟩

/-- The clock goes back when a process is resumed with a negative `max_burst`:
all wait arguments of `handover_run (-1)` are non-negative, yet the burst of
the first process passes the deadline 5 of the second (clock 10) and
`sim_wait_nextintr` then sets the clock to 5. -/
theorem clock_goes_back_after_negative_max_burst :
    run_satisfies Prim.nonneg_wait idle_callbacks 10 (handover_run (-1))
      (sim_engine_init (fun _ => default) (fun _ => default)) = true ∧
    (run_prims idle_callbacks 10 (handover_run (-1))
        (sim_engine_init (fun _ => default) (fun _ => default))).map
        (fun states => states.map sim_engine_getclock)
      = some [0, 0, 0, 0, 0, 0, 10, 5] ∧
    ¬ List.Chain (fun a b => a ≤ b) (0 : Int) [0, 0, 0, 0, 0, 0, 10, 5] := by
  refine ⟨by decide, by decide, ?_⟩
  intro h
  simp only [List.chain_cons] at h
  exact absurd h.2.2.2.2.2.2.2.1 (by decide)

/-- C5 (amended): advancing virtual time does not overshoot the next scheduled
event as long as the caller's slice is not negative.  If the iowait queue is
sorted and every deadline in it is at least the clock, and the callbacks leave
the engine state unchanged, then every entry still in iowait has a deadline at
least the clock after an iteration of the `sim_cpuburst` loop entered with a
slice `cpu_maxburst >= 0`, after `sim_wait_nextintr`, and after
`sim_deviorequest` with `wait >= 0`. -/
theorem advance_never_overshoots (cb : Callbacks) (hcb : cb.inert) (self : Nat) (wait : Int)
    (s : Engine) (hs : iowait_sorted s) (hp : iowait_pending s) :
    (0 < wait → 0 ≤ (s.pcb self).cpu_maxburst →
      iowait_pending (sim_cpuburst_iter cb self wait s).2) ∧
    iowait_pending (sim_wait_nextintr cb s) ∧
    (0 ≤ wait → iowait_pending (sim_deviorequest self wait s)) := by
  refine ⟨?_, (sim_wait_nextintr_invariant cb hcb s hs hp).2.1, ?_⟩
  · intro hw hslice
    rw [sim_cpuburst_iter_inert cb hcb]
    exact (sim_cpuburst_iter_invariant self wait s hslice hs hp).2.1 hw
  · intro hw
    exact sim_deviorequest_pending self wait s hw hp

theorem advance_never_overshoots_witness :
    (idle_callbacks.inert ∧ iowait_sorted burst_state ∧ iowait_pending burst_state) ∧
    ((0 : Int) < 10 → 0 ≤ (burst_state.pcb 3).cpu_maxburst →
      iowait_pending (sim_cpuburst_iter idle_callbacks 3 10 burst_state).2) ∧
    iowait_pending (sim_wait_nextintr idle_callbacks burst_state) ∧
    ((0 : Int) ≤ 10 → iowait_pending (sim_deviorequest 3 10 burst_state)) :=
  ⟨⟨idle_callbacks_inert, by decide, by decide⟩,
    advance_never_overshoots idle_callbacks idle_callbacks_inert 3 10 burst_state
      (by decide) (by decide)⟩

/-- With slice -1 the budget of the first `if` is -1, so the completion due at
clock 5 is not delivered, and the last branch advances the clock by the whole
`wait = 10`: the entry left in iowait has its deadline 5 before the clock 10. -/
theorem iteration_overshoots_with_negative_slice :
    (iowait_sorted negative_slice_state ∧ iowait_pending negative_slice_state ∧ (0 : Int) < 10) ∧
    (sim_cpuburst_iter idle_callbacks 1 10 negative_slice_state).2.sim_engine_clock = 10 ∧
    (sim_cpuburst_iter idle_callbacks 1 10 negative_slice_state).2.sim_engine_iowait = [2] ∧
    ¬ iowait_pending (sim_cpuburst_iter idle_callbacks 1 10 negative_slice_state).2 := by
  decide

/-- C6, evaluated: the process at address 3 is resumed with `max_burst = 5`
and an empty iowait queue, and calls `sim_cpuburst(5)` twice.  The first call
ends exactly on the budget, which leaves `cpu_maxburst = 0`, the value that
means unlimited; the second call then advances the clock by 5 more.  The clock
has advanced by 10 in this tenure and the slice-runout callback was never
invoked. -/
theorem slice_budget_overrun :
    ((sim_cpustate_restore none 203 5 restore_state).pcb 3).cpu_maxburst = 5 ∧
    (sim_cpustate_restore none 203 5 restore_state).sim_engine_iowait = [] ∧
    (sim_cpuburst idle_callbacks 3 5 2 (sim_cpustate_restore none 203 5 restore_state)).map
        (fun s => (s.sim_engine_clock - restore_state.sim_engine_clock,
          (s.pcb 3).cpu_maxburst, runout_args s.trace))
      = some (5, 0, []) ∧
    ((sim_cpuburst idle_callbacks 3 5 2 (sim_cpustate_restore none 203 5 restore_state)).bind
        (sim_cpuburst idle_callbacks 3 5 2)).map
        (fun s => (s.sim_engine_clock - restore_state.sim_engine_clock, runout_args s.trace))
      = some (10, []) := by
  decide

/-- C7: for `sim_cpuburst(n)` with `n > 0`, entered with slice `s` and with
callbacks that leave the engine state unchanged, the call returns and the
slice-runout callback is invoked if and only if `s > 0` and `n > s`; when
`s = 0` (unlimited) it is not invoked and the slice is still 0 on return.
(The assumptions of the claim on the iowait queue are not needed.) -/
theorem sim_cpuburst_runout_iff (cb : Callbacks) (hcb : cb.inert) (self : Nat) (n : Int)
    (hn : 0 < n) (s : Engine) (fuel : Nat) (hfuel : s.sim_engine_iowait.length + 2 ≤ fuel) :
    ∃ s' evs, sim_cpuburst cb self n fuel s = some s' ∧ s'.trace = s.trace ++ evs ∧
      (runout_args evs ≠ [] ↔ 0 < (s.pcb self).cpu_maxburst ∧ (s.pcb self).cpu_maxburst < n) ∧
      ((s.pcb self).cpu_maxburst = 0 →
        runout_args evs = [] ∧ (s'.pcb self).cpu_maxburst = 0) := by
  obtain ⟨s', evs, e1, _, e3, e4, e5, _⟩ :=
    sim_cpuburst_loop_idle self fuel n s (le_of_lt hn) (le_trans (burst_fuel_le self s) hfuel)
  refine ⟨s', evs, ?_, e3, ?_, ?_⟩
  · unfold sim_cpuburst
    rw [sim_cpuburst_loop_inert cb hcb]
    exact e1
  · rw [e4]
    by_cases h : 0 < (s.pcb self).cpu_maxburst ∧ (s.pcb self).cpu_maxburst < n
    · simp [h]
    · simp [h]
  · intro h0
    refine ⟨?_, e5 h0⟩
    rw [e4, if_neg (by omega)]

theorem sim_cpuburst_runout_iff_witness :
    (idle_callbacks.inert ∧ (0 : Int) < 10 ∧ burst_state.sim_engine_iowait.length + 2 ≤ 4) ∧
    ∃ s' evs, sim_cpuburst idle_callbacks 3 10 4 burst_state = some s' ∧
      s'.trace = burst_state.trace ++ evs ∧
      (runout_args evs ≠ [] ↔
        0 < (burst_state.pcb 3).cpu_maxburst ∧ (burst_state.pcb 3).cpu_maxburst < 10) ∧
      ((burst_state.pcb 3).cpu_maxburst = 0 →
        runout_args evs = [] ∧ (s'.pcb 3).cpu_maxburst = 0) :=
  ⟨⟨idle_callbacks_inert, by decide, by decide⟩,
    sim_cpuburst_runout_iff idle_callbacks idle_callbacks_inert 3 10 (by decide)
      burst_state 4 (by decide)⟩

/-! ## The fast-forward `sim_wait_nextintr` (C8, C9) -/

/-- C8: when the iowait queue is `head :: rest`, `sim_wait_nextintr` sets the
clock to the head's `ioready_clock`, makes `rest` the iowait queue (the other
entries and their order are untouched), appends the head at the tail of
active, and then invokes the I/O-ready callback once, with the head's opaque
handle: the result is the callback applied to exactly that state.  With a
callback that leaves the engine unchanged this is the state on return, and the
single recorded invocation is the only change to the trace. -/
theorem sim_wait_nextintr_delivers_head (cb : Callbacks) (s : Engine) (head : Nat)
    (rest : List Nat) (hq : s.sim_engine_iowait = head :: rest) :
    sim_wait_nextintr cb s =
      cb.sim_engine_callback_devioready (s.pcb head).proc_cb_p
        { s with
          sim_engine_clock := (s.pcb head).ioready_clock
          sim_engine_iowait := rest
          sim_engine_active := s.sim_engine_active ++ [head]
          trace := s.trace ++
            [Event.devioready (s.pcb head).proc_cb_p (s.pcb head).ioready_clock] } ∧
    (cb.inert →
      (sim_wait_nextintr cb s).sim_engine_clock = (s.pcb head).ioready_clock ∧
      (sim_wait_nextintr cb s).sim_engine_iowait = rest ∧
      (sim_wait_nextintr cb s).sim_engine_active = s.sim_engine_active ++ [head] ∧
      (sim_wait_nextintr cb s).trace = s.trace ++
        [Event.devioready (s.pcb head).proc_cb_p (s.pcb head).ioready_clock] ∧
      (sim_wait_nextintr cb s).pcb = s.pcb ∧
      (sim_wait_nextintr cb s).cpustate = s.cpustate) := by
  have e : sim_wait_nextintr cb s =
      cb.sim_engine_callback_devioready (s.pcb head).proc_cb_p
        { s with
          sim_engine_clock := (s.pcb head).ioready_clock
          sim_engine_iowait := rest
          sim_engine_active := s.sim_engine_active ++ [head]
          trace := s.trace ++
            [Event.devioready (s.pcb head).proc_cb_p (s.pcb head).ioready_clock] } := by
    unfold sim_wait_nextintr
    rw [hq]
    simp only [List.erase_cons_head]
  refine ⟨e, fun hcb => ?_⟩
  rw [e, hcb.1]
  exact ⟨rfl, rfl, rfl, rfl, rfl, rfl⟩

theorem sim_wait_nextintr_delivers_head_witness :
    burst_state.sim_engine_iowait = 1 :: [2] ∧
    (sim_wait_nextintr idle_callbacks burst_state =
      idle_callbacks.sim_engine_callback_devioready (burst_state.pcb 1).proc_cb_p
        { burst_state with
          sim_engine_clock := (burst_state.pcb 1).ioready_clock
          sim_engine_iowait := [2]
          sim_engine_active := burst_state.sim_engine_active ++ [1]
          trace := burst_state.trace ++
            [Event.devioready (burst_state.pcb 1).proc_cb_p (burst_state.pcb 1).ioready_clock] } ∧
    (idle_callbacks.inert →
      (sim_wait_nextintr idle_callbacks burst_state).sim_engine_clock
        = (burst_state.pcb 1).ioready_clock ∧
      (sim_wait_nextintr idle_callbacks burst_state).sim_engine_iowait = [2] ∧
      (sim_wait_nextintr idle_callbacks burst_state).sim_engine_active
        = burst_state.sim_engine_active ++ [1] ∧
      (sim_wait_nextintr idle_callbacks burst_state).trace = burst_state.trace ++
        [Event.devioready (burst_state.pcb 1).proc_cb_p (burst_state.pcb 1).ioready_clock] ∧
      (sim_wait_nextintr idle_callbacks burst_state).pcb = burst_state.pcb ∧
      (sim_wait_nextintr idle_callbacks burst_state).cpustate = burst_state.cpustate)) :=
  ⟨rfl, sim_wait_nextintr_delivers_head idle_callbacks burst_state 1 [2] rfl⟩

/-- C9: when the iowait queue is empty, `sim_wait_nextintr` returns the state
it was given: clock, active, iowait, every control block and the record of
callback invocations are unchanged, whatever the callbacks are. -/
theorem sim_wait_nextintr_empty_noop (cb : Callbacks) (s : Engine)
    (hq : s.sim_engine_iowait = []) : sim_wait_nextintr cb s = s := by
  unfold sim_wait_nextintr
  rw [hq]

theorem sim_wait_nextintr_empty_noop_witness :
    (sim_engine_init (fun _ => default) (fun _ => default)).sim_engine_iowait = [] ∧
    sim_wait_nextintr idle_callbacks (sim_engine_init (fun _ => default) (fun _ => default))
      = sim_engine_init (fun _ => default) (fun _ => default) :=
  ⟨rfl, sim_wait_nextintr_empty_noop idle_callbacks _ rfl⟩

/-! ## The hand-over `sim_cpustate_restore` (C10 to C12) -/

/-- C10: `sim_cpustate_restore(state, max_burst)` returns the state it was
given when `state.cpustate_uptodate` is false or when the control block that
`state.state_info_dummy` refers to does not point back to `state`: the clock,
both queues, `state` itself, every `cpu_maxburst` and every semaphore are
unchanged, and no semaphore operation is recorded. -/
theorem sim_cpustate_restore_stale_noop (self : Option Nat) (sim_cpustate_p : Nat)
    (cpu_maxburst : Int) (s : Engine)
    (h : (s.cpustate sim_cpustate_p).cpustate_uptodate = false ∨
      sim_cpustate_p ≠ (s.pcb (s.cpustate sim_cpustate_p).state_info_dummy).cpustate_p) :
    sim_cpustate_restore self sim_cpustate_p cpu_maxburst s = s := by
  unfold sim_cpustate_restore
  rcases h with h | h
  · simp [h]
  · simp [h]

theorem sim_cpustate_restore_stale_noop_witness :
    ((restore_state.cpustate 204).cpustate_uptodate = false ∨
      204 ≠ (restore_state.pcb (restore_state.cpustate 204).state_info_dummy).cpustate_p) ∧
    sim_cpustate_restore (some 3) 204 7 restore_state = restore_state :=
  ⟨Or.inr (by decide),
    sim_cpustate_restore_stale_noop (some 3) 204 7 restore_state (Or.inr (by decide))⟩

/-- C11: when `state.cpustate_uptodate` is true and the control block that
`state.state_info_dummy` names points back to `state`,
`sim_cpustate_restore(state, max_burst)` clears `state.cpustate_uptodate`,
sets the target's `cpu_maxburst` to `max_burst` and posts exactly once to the
target's semaphore (the only other semaphore operation is the caller's own
`sem_wait` when the caller is a process; the target's counter is one higher
when the caller is not the target itself).  The clock, the active and iowait
queues and the `cpu_maxburst` of every other control block are unchanged. -/
theorem sim_cpustate_restore_hands_over (self : Option Nat) (sim_cpustate_p : Nat)
    (cpu_maxburst : Int) (s : Engine)
    (hup : (s.cpustate sim_cpustate_p).cpustate_uptodate = true)
    (hback : sim_cpustate_p
      = (s.pcb (s.cpustate sim_cpustate_p).state_info_dummy).cpustate_p) :
    ((sim_cpustate_restore self sim_cpustate_p cpu_maxburst s).cpustate
        sim_cpustate_p).cpustate_uptodate = false ∧
    ((sim_cpustate_restore self sim_cpustate_p cpu_maxburst s).pcb
        (s.cpustate sim_cpustate_p).state_info_dummy).cpu_maxburst = cpu_maxburst ∧
    (sim_cpustate_restore self sim_cpustate_p cpu_maxburst s).trace
      = s.trace ++ Event.sem_post (s.cpustate sim_cpustate_p).state_info_dummy ::
          (match self with
            | some me => [Event.sem_wait me]
            | none => []) ∧
    (self ≠ some (s.cpustate sim_cpustate_p).state_info_dummy →
      ((sim_cpustate_restore self sim_cpustate_p cpu_maxburst s).pcb
          (s.cpustate sim_cpustate_p).state_info_dummy).cpusem
        = (s.pcb (s.cpustate sim_cpustate_p).state_info_dummy).cpusem + 1) ∧
    (sim_cpustate_restore self sim_cpustate_p cpu_maxburst s).sim_engine_clock
      = s.sim_engine_clock ∧
    (sim_cpustate_restore self sim_cpustate_p cpu_maxburst s).sim_engine_active
      = s.sim_engine_active ∧
    (sim_cpustate_restore self sim_cpustate_p cpu_maxburst s).sim_engine_iowait
      = s.sim_engine_iowait ∧
    (∀ p, p ≠ (s.cpustate sim_cpustate_p).state_info_dummy →
      ((sim_cpustate_restore self sim_cpustate_p cpu_maxburst s).pcb p).cpu_maxburst
        = (s.pcb p).cpu_maxburst) := by
  have e := sim_cpustate_restore_fresh self sim_cpustate_p cpu_maxburst s hup hback
  obtain ⟨f1, f2, f3, _⟩ := sim_cpustate_restore_frame self sim_cpustate_p cpu_maxburst s
  refine ⟨?_, ?_, ?_, ?_, f1, f3, f2, ?_⟩
  · rw [e]
    cases self with
    | none => exact congrArg sim_cpustate.cpustate_uptodate (upd_same _ _ _)
    | some me => exact congrArg sim_cpustate.cpustate_uptodate (upd_same _ _ _)
  · rw [e]
    cases self with
    | none =>
      rw [(sem_post_cpusem_frame _ _).2.2.2.2]
      exact congrArg sim_engine_proc_cb.cpu_maxburst (upd_same _ _ _)
    | some me =>
      rw [(sem_wait_cpusem_frame _ _).2.2.2.2, (sem_post_cpusem_frame _ _).2.2.2.2]
      exact congrArg sim_engine_proc_cb.cpu_maxburst (upd_same _ _ _)
  · rw [e]
    cases self with
    | none => rfl
    | some me => simp [sem_post_cpusem, sem_wait_cpusem]
  · intro hne
    rw [e]
    cases self with
    | none => simp [sem_post_cpusem, upd]
    | some me =>
      have h : ¬ (s.cpustate sim_cpustate_p).state_info_dummy = me := fun h => hne (by rw [h])
      simp [sem_post_cpusem, sem_wait_cpusem, upd, h]
  · intro p hp
    rw [e]
    cases self with
    | none =>
      rw [(sem_post_cpusem_frame _ _).2.2.2.2]
      exact congrArg sim_engine_proc_cb.cpu_maxburst (upd_other _ _ _ _ hp)
    | some me =>
      rw [(sem_wait_cpusem_frame _ _).2.2.2.2, (sem_post_cpusem_frame _ _).2.2.2.2]
      exact congrArg sim_engine_proc_cb.cpu_maxburst (upd_other _ _ _ _ hp)

theorem sim_cpustate_restore_hands_over_witness :
    ((restore_state.cpustate 203).cpustate_uptodate = true ∧
      203 = (restore_state.pcb (restore_state.cpustate 203).state_info_dummy).cpustate_p) ∧
    (((sim_cpustate_restore none 203 7 restore_state).cpustate 203).cpustate_uptodate = false ∧
    ((sim_cpustate_restore none 203 7 restore_state).pcb
        (restore_state.cpustate 203).state_info_dummy).cpu_maxburst = 7 ∧
    (sim_cpustate_restore none 203 7 restore_state).trace
      = restore_state.trace ++ Event.sem_post (restore_state.cpustate 203).state_info_dummy ::
          (match (none : Option Nat) with
            | some me => [Event.sem_wait me]
            | none => []) ∧
    ((none : Option Nat) ≠ some (restore_state.cpustate 203).state_info_dummy →
      ((sim_cpustate_restore none 203 7 restore_state).pcb
          (restore_state.cpustate 203).state_info_dummy).cpusem
        = (restore_state.pcb (restore_state.cpustate 203).state_info_dummy).cpusem + 1) ∧
    (sim_cpustate_restore none 203 7 restore_state).sim_engine_clock
      = restore_state.sim_engine_clock ∧
    (sim_cpustate_restore none 203 7 restore_state).sim_engine_active
      = restore_state.sim_engine_active ∧
    (sim_cpustate_restore none 203 7 restore_state).sim_engine_iowait
      = restore_state.sim_engine_iowait ∧
    (∀ p, p ≠ (restore_state.cpustate 203).state_info_dummy →
      ((sim_cpustate_restore none 203 7 restore_state).pcb p).cpu_maxburst
        = (restore_state.pcb p).cpu_maxburst)) :=
  ⟨⟨by decide, by decide⟩,
    sim_cpustate_restore_hands_over none 203 7 restore_state (by decide) (by decide)⟩

/-- C12 (amended): `sim_cpustate_save(state)` by the process `self` followed
by `sim_cpustate_restore(state, m)` with the same `state` (by any caller, with
no restore in between) leaves the clock unchanged and sets the process's
`cpu_maxburst` to `m`: the slice the process had before is overwritten, so it
is preserved only when `m` equals it. -/
theorem save_then_restore_sets_slice (caller : Option Nat) (self : Nat) (sim_cpustate_p : Nat)
    (m : Int) (s : Engine) :
    (sim_cpustate_restore caller sim_cpustate_p m
        (sim_cpustate_save self sim_cpustate_p s)).sim_engine_clock = s.sim_engine_clock ∧
    ((sim_cpustate_restore caller sim_cpustate_p m
        (sim_cpustate_save self sim_cpustate_p s)).pcb self).cpu_maxburst = m := by
  have hst : (sim_cpustate_save self sim_cpustate_p s).cpustate sim_cpustate_p
      = { cpustate_uptodate := true, state_info_dummy := self } := upd_same _ _ _
  have hup : ((sim_cpustate_save self sim_cpustate_p s).cpustate
      sim_cpustate_p).cpustate_uptodate = true := by rw [hst]
  have hdummy : ((sim_cpustate_save self sim_cpustate_p s).cpustate
      sim_cpustate_p).state_info_dummy = self := by rw [hst]
  have hback : sim_cpustate_p = ((sim_cpustate_save self sim_cpustate_p s).pcb
      ((sim_cpustate_save self sim_cpustate_p s).cpustate
        sim_cpustate_p).state_info_dummy).cpustate_p := by
    rw [hdummy]
    show sim_cpustate_p = (upd s.pcb self _ self).cpustate_p
    rw [upd_same]
  have e := sim_cpustate_restore_fresh caller sim_cpustate_p m
    (sim_cpustate_save self sim_cpustate_p s) hup hback
  refine ⟨(sim_cpustate_restore_frame caller sim_cpustate_p m _).1, ?_⟩
  rw [e, hdummy]
  cases caller with
  | none =>
    rw [(sem_post_cpusem_frame _ _).2.2.2.2]
    exact congrArg sim_engine_proc_cb.cpu_maxburst (upd_same _ _ _)
  | some me =>
    rw [(sem_wait_cpusem_frame _ _).2.2.2.2, (sem_post_cpusem_frame _ _).2.2.2.2]
    exact congrArg sim_engine_proc_cb.cpu_maxburst (upd_same _ _ _)

/-- The process at address 3 runs with slice 4; it saves its state and restores
it with `max_burst = 7`: its slice is 7 afterwards, not 4. -/
theorem save_then_restore_changes_slice :
    (burst_state.pcb 3).cpu_maxburst = 4 ∧
    ((sim_cpustate_restore (some 3) 203 7 (sim_cpustate_save 3 203 burst_state)).pcb
        3).cpu_maxburst = 7 ∧
    ((sim_cpustate_restore (some 3) 203 7 (sim_cpustate_save 3 203 burst_state)).pcb
        3).cpu_maxburst ≠ (burst_state.pcb 3).cpu_maxburst := by
  decide

/-! ## The boundary cases and the order of callbacks in `sim_cpuburst` (C13 to C15) -/

/-- C13: `sim_cpuburst(0)` returns at once in every engine state, whatever the
callbacks and the iowait queue are (also with a head deadline equal to or
before the clock): the state on return is the state on entry, so the clock,
both queues, the caller's slice and the record of callback invocations are
unchanged. -/
theorem sim_cpuburst_zero_noop (cb : Callbacks) (self : Nat) (fuel : Nat) (s : Engine) :
    sim_cpuburst cb self 0 fuel s = some s := by
  unfold sim_cpuburst
  exact sim_cpuburst_loop_done cb self fuel 0 s (le_refl _)

/-- C14: in a loop iteration of `sim_cpuburst` where the head of the iowait
queue has `ioready_clock` exactly equal to clock + budget, the I/O-completion
branch is not taken: the iteration is the slice-runout or completion branch.
With callbacks that leave the engine state unchanged, the iowait queue (its
head included) is the same after the iteration and no I/O-ready callback was
invoked in it. -/
theorem sim_cpuburst_tie_skips_ioready (cb : Callbacks) (self : Nat) (wait : Int) (s : Engine)
    (head : Nat) (rest : List Nat) (hq : s.sim_engine_iowait = head :: rest)
    (htie : (s.pcb head).ioready_clock
      = s.sim_engine_clock + burst_budget (s.pcb self).cpu_maxburst wait) :
    sim_cpuburst_iter cb self wait s = sim_cpuburst_advance cb self wait s ∧
    (cb.inert →
      (sim_cpuburst_iter cb self wait s).2.sim_engine_iowait = head :: rest ∧
      ∃ evs, (sim_cpuburst_iter cb self wait s).2.trace = s.trace ++ evs ∧
        ioready_args evs = []) := by
  have hnone : ioready_first self wait s = none := by
    unfold ioready_first
    rw [hq]
    simp only
    rw [if_neg (by omega)]
  have e : ∀ cb1 : Callbacks,
      sim_cpuburst_iter cb1 self wait s = sim_cpuburst_advance cb1 self wait s := by
    intro cb1
    unfold sim_cpuburst_iter
    rw [hnone]
  refine ⟨e cb, fun hcb => ?_⟩
  rw [sim_cpuburst_iter_inert cb hcb, e idle_callbacks, ← hq]
  by_cases hr : 0 < (s.pcb self).cpu_maxburst ∧ (s.pcb self).cpu_maxburst < wait
  · obtain ⟨_, _, h3, _, h5, _⟩ := sim_cpuburst_advance_runout_idle self wait s hr
    exact ⟨h3, _, h5, rfl⟩
  · obtain ⟨_, _, h3, _, h5, _⟩ := sim_cpuburst_advance_complete idle_callbacks self wait s hr
    exact ⟨h3, [], by rw [h5]; simp, rfl⟩

theorem sim_cpuburst_tie_skips_ioready_witness :
    (deviorequest_state.sim_engine_iowait = 1 :: [2] ∧
      (deviorequest_state.pcb 1).ioready_clock
        = deviorequest_state.sim_engine_clock + burst_budget (deviorequest_state.pcb 3).cpu_maxburst 5) ∧
    (sim_cpuburst_iter idle_callbacks 3 5 deviorequest_state
        = sim_cpuburst_advance idle_callbacks 3 5 deviorequest_state ∧
      (idle_callbacks.inert →
        (sim_cpuburst_iter idle_callbacks 3 5 deviorequest_state).2.sim_engine_iowait = 1 :: [2] ∧
        ∃ evs, (sim_cpuburst_iter idle_callbacks 3 5 deviorequest_state).2.trace
            = deviorequest_state.trace ++ evs ∧
          ioready_args evs = [])) :=
  ⟨⟨rfl, by decide⟩,
    sim_cpuburst_tie_skips_ioready idle_callbacks 3 5 deviorequest_state 1 [2] rfl (by decide)⟩

/-- C15: within one call of `sim_cpuburst`, entered with a sorted iowait queue
in which every deadline is at least the clock and with callbacks that leave the
engine state unchanged, the call returns and its callbacks are delivered in
virtual-time order: the clock values at which the I/O-ready and slice-runout
callbacks are invoked form an ascending (non-decreasing) sequence; the control
blocks delivered are a prefix `delivered` of the iowait queue, delivered in
queue order (so equal deadlines go in insertion order), each with its own
opaque handle and with the clock equal to its `ioready_clock`. -/
theorem sim_cpuburst_callbacks_in_time_order (cb : Callbacks) (hcb : cb.inert) (self : Nat)
    (wait : Int) (s : Engine) (fuel : Nat) (hfuel : s.sim_engine_iowait.length + 2 ≤ fuel)
    (hs : iowait_sorted s) (hp : iowait_pending s) :
    ∃ s' evs delivered, sim_cpuburst cb self wait fuel s = some s' ∧
      s'.trace = s.trace ++ evs ∧
      (callback_clocks evs).Pairwise (fun a b => a ≤ b) ∧
      s.sim_engine_iowait = delivered ++ s'.sim_engine_iowait ∧
      ioready_calls evs
        = delivered.map (fun p => ((s.pcb p).proc_cb_p, (s.pcb p).ioready_clock)) := by
  unfold sim_cpuburst
  rw [sim_cpuburst_loop_inert cb hcb]
  by_cases hw : 0 < wait
  swap
  · refine ⟨s, [], [], sim_cpuburst_loop_done _ _ _ _ _ (not_lt.1 hw), by simp, ?_, by simp, rfl⟩
    simp [callback_clocks]
  · obtain ⟨s', _, e1, _⟩ := sim_cpuburst_loop_idle self fuel wait s (le_of_lt hw)
      (le_trans (burst_fuel_le self s) hfuel)
    by_cases hslice : 0 ≤ (s.pcb self).cpu_maxburst
    · obtain ⟨evs, delivered, j1, j2, j3, _, j5⟩ :=
        sim_cpuburst_loop_events self fuel wait s s' hslice hs hp e1
      exact ⟨s', evs, delivered, e1, j1, j5, j2, j3⟩
    · obtain ⟨k1, k2⟩ :=
        sim_cpuburst_loop_negative_slice self fuel wait s s' (not_le.1 hslice) hw hp e1
      refine ⟨s', [], [], e1, by rw [k1]; simp, ?_, by rw [k2]; rfl, rfl⟩
      simp [callback_clocks]

theorem sim_cpuburst_callbacks_in_time_order_witness :
    (idle_callbacks.inert ∧ burst_state.sim_engine_iowait.length + 2 ≤ 4 ∧
      iowait_sorted burst_state ∧ iowait_pending burst_state) ∧
    ∃ s' evs delivered, sim_cpuburst idle_callbacks 3 10 4 burst_state = some s' ∧
      s'.trace = burst_state.trace ++ evs ∧
      (callback_clocks evs).Pairwise (fun a b => a ≤ b) ∧
      burst_state.sim_engine_iowait = delivered ++ s'.sim_engine_iowait ∧
      ioready_calls evs
        = delivered.map
            (fun p => ((burst_state.pcb p).proc_cb_p, (burst_state.pcb p).ioready_clock)) :=
  ⟨⟨idle_callbacks_inert, by decide, by decide, by decide⟩,
    sim_cpuburst_callbacks_in_time_order idle_callbacks idle_callbacks_inert 3 10 burst_state 4
      (by decide) (by decide) (by decide)⟩

/-- Three completions queued at clock 0, two of them with the same deadline 7
(addresses 1 and 2, in that order) and one with deadline 9: a burst of 20 with
an unlimited slice delivers them at clocks 7, 7 and 9 in queue order. -/
theorem sim_cpuburst_tie_delivery_example :
    (sim_cpuburst idle_callbacks 4 20 5
        { sim_engine_clock := 0
          sim_engine_procs_count := 4
          sim_engine_running := 0
          sim_engine_active := [4]
          sim_engine_iowait := [1, 2, 3]
          pcb := fun p =>
            { proc_cb_p := 100 + p, cpusem := 0, cpustate_p := 200 + p,
              ioready_clock := if p = 3 then 9 else 7, cpu_maxburst := 0 }
          cpustate := fun _ => { cpustate_uptodate := false, state_info_dummy := 0 }
          trace := [] }).map (fun s => (s.trace, s.sim_engine_clock))
      = some ([Event.devioready 101 7, Event.devioready 102 7, Event.devioready 103 9], 20) := by
  decide

/-! ## The all-finished semaphore and the I/O-ordering scenario (C16, C17) -/

/-- C16: with the all-finished semaphore `sim_engine_running` modelled as its
counter and exit callbacks that leave the engine state unchanged, after every
sequence of `sim_loadproc` calls and process exits that starts from
`sim_engine_init` and in which a process exits only when the live count is
positive, the counter is 1 exactly when `sim_engine_procs_count` is 0 and at
least one process was loaded, and 0 otherwise; so `sim_engine_wait_allfinish`
can return exactly when the live count is 0 and a process was ever loaded. -/
theorem all_finished_semaphore (cb : Callbacks) (hcb : cb.inert)
    (pcb0 : Nat → sim_engine_proc_cb) (cpustate0 : Nat → sim_cpustate) (evs : List Lifecycle)
    (hok : lifecycle_ok cb evs (sim_engine_init pcb0 cpustate0) = true) :
    (run_lifecycle cb evs (sim_engine_init pcb0 cpustate0)).sim_engine_running
      = (if (run_lifecycle cb evs (sim_engine_init pcb0 cpustate0)).sim_engine_procs_count = 0 ∧
          ever_loaded evs = true then 1 else 0) ∧
    ((sim_engine_wait_allfinish
        (run_lifecycle cb evs (sim_engine_init pcb0 cpustate0))).isSome = true ↔
      (run_lifecycle cb evs (sim_engine_init pcb0 cpustate0)).sim_engine_procs_count = 0 ∧
        ever_loaded evs = true) := by
  obtain ⟨_, b⟩ := run_lifecycle_invariant cb hcb evs (sim_engine_init pcb0 cpustate0) false
    (le_refl _) (fun _ => rfl) (by simp [sim_engine_init]) hok
  simp only [Bool.false_or] at b
  refine ⟨b, ?_⟩
  unfold sim_engine_wait_allfinish
  rw [b]
  split <;> simp_all

theorem all_finished_semaphore_witness :
    (idle_callbacks.inert ∧
      lifecycle_ok idle_callbacks
        [Lifecycle.load 1 201 101, Lifecycle.load 2 202 102, Lifecycle.finish 1,
          Lifecycle.finish 2]
        (sim_engine_init (fun _ => default) (fun _ => default)) = true) ∧
    ((run_lifecycle idle_callbacks
        [Lifecycle.load 1 201 101, Lifecycle.load 2 202 102, Lifecycle.finish 1,
          Lifecycle.finish 2]
        (sim_engine_init (fun _ => default) (fun _ => default))).sim_engine_running
      = (if (run_lifecycle idle_callbacks
            [Lifecycle.load 1 201 101, Lifecycle.load 2 202 102, Lifecycle.finish 1,
              Lifecycle.finish 2]
            (sim_engine_init (fun _ => default) (fun _ => default))).sim_engine_procs_count = 0 ∧
          ever_loaded
            [Lifecycle.load 1 201 101, Lifecycle.load 2 202 102, Lifecycle.finish 1,
              Lifecycle.finish 2] = true then 1 else 0) ∧
    ((sim_engine_wait_allfinish
        (run_lifecycle idle_callbacks
          [Lifecycle.load 1 201 101, Lifecycle.load 2 202 102, Lifecycle.finish 1,
            Lifecycle.finish 2]
          (sim_engine_init (fun _ => default) (fun _ => default)))).isSome = true ↔
      (run_lifecycle idle_callbacks
          [Lifecycle.load 1 201 101, Lifecycle.load 2 202 102, Lifecycle.finish 1,
            Lifecycle.finish 2]
          (sim_engine_init (fun _ => default) (fun _ => default))).sim_engine_procs_count = 0 ∧
        ever_loaded
          [Lifecycle.load 1 201 101, Lifecycle.load 2 202 102, Lifecycle.finish 1,
            Lifecycle.finish 2] = true)) :=
  ⟨⟨idle_callbacks_inert, by decide⟩,
    all_finished_semaphore idle_callbacks idle_callbacks_inert (fun _ => default)
      (fun _ => default) _ (by decide)⟩

/-- The counter of `sim_engine_running` along load, load, exit, exit, load,
exit: it is 1 after the second and after the third exit only. -/
theorem semaphore_counter_along_run :
    [0, 1, 2, 3, 4, 5, 6].map (fun k =>
        let s := run_lifecycle idle_callbacks
          ([Lifecycle.load 1 201 101, Lifecycle.load 2 202 102, Lifecycle.finish 1,
            Lifecycle.finish 2, Lifecycle.load 3 203 103, Lifecycle.finish 3].take k)
          (sim_engine_init (fun _ => default) (fun _ => default))
        (s.sim_engine_procs_count, s.sim_engine_running))
      = [(0, 0), (1, 0), (2, 0), (1, 0), (0, 1), (1, 0), (0, 1)] := by
  decide

/-- C17 (amended): the I/O-ordering scenario.  Starting at clock 0, P1 calls
`sim_deviorequest(30)` and then P2 calls `sim_deviorequest(20)`, so iowait is
[P2 at 20, P1 at 30]; `sim_wait_nextintr` sets the clock to 20 and readies P2;
P2's `sim_cpuburst(10)` with unlimited slice returns with clock 30, and P1,
whose deadline 30 equals clock + budget, is not delivered during that call: it
is still in iowait and the only I/O-ready callback so far is the one for P2.
The `sim_wait_nextintr` that follows P2's exit readies P1 at clock 30, and
after P1's `sim_cpuburst(10)` the final clock is 40. -/
theorem io_ordering_scenario :
    (io_ordering_requests.sim_engine_clock = 0 ∧
      io_ordering_requests.sim_engine_iowait = [2, 1] ∧
      (io_ordering_requests.pcb 2).ioready_clock = 20 ∧
      (io_ordering_requests.pcb 1).ioready_clock = 30) ∧
    (io_ordering_p2_resumed.sim_engine_clock = 20 ∧
      io_ordering_p2_resumed.sim_engine_active = [2] ∧
      io_ordering_p2_resumed.sim_engine_iowait = [1] ∧
      ioready_calls io_ordering_p2_resumed.trace = [(102, 20)] ∧
      (io_ordering_p2_resumed.pcb 2).cpu_maxburst = 0) ∧
    io_ordering_p2_burst.map
        (fun s => (s.sim_engine_clock, s.sim_engine_iowait, ioready_calls s.trace))
      = some (30, [1], [(102, 20)]) ∧
    io_ordering_end.map
        (fun s => (s.sim_engine_clock, s.sim_engine_iowait, ioready_calls s.trace))
      = some (40, [], [(102, 20), (101, 30)]) := by
  decide

/-- The I/O-ready callback for P1 (handle 101) is not invoked during P2's
`sim_cpuburst(10)`: the callbacks recorded on return from that call are the
ones recorded on entry, and P1 is still queued in iowait. -/
theorem io_ordering_p1_not_delivered_in_burst :
    io_ordering_p2_burst.map
        (fun s => (decide (s.trace = io_ordering_p2_resumed.trace),
          decide (1 ∈ s.sim_engine_iowait),
          decide ((101, 30) ∈ ioready_calls s.trace)))
      = some (true, true, false) := by
  decide

/-! ## Termination, queue membership and the slice under I/O delivery (C18 to C20) -/

/-- C18: with callbacks that leave the engine state unchanged, the loop of
`sim_cpuburst` terminates for every `wait` and every iowait queue.  Each
iteration (entered with `wait > 0`) removes one control block from iowait, or
zeroes a positive slice (after which the slice stays 0), or sets `wait` to 0;
so the loop body runs `k` times for some `k` of at most length(iowait) + 2:
the guard holds before each of these iterations, `wait <= 0` after the last,
and the call returns the state reached then. -/
theorem sim_cpuburst_terminates (cb : Callbacks) (hcb : cb.inert) (self : Nat) (wait : Int)
    (s : Engine) :
    (∃ k, k ≤ s.sim_engine_iowait.length + 2 ∧
      (∀ j, j < k → 0 < (sim_cpuburst_iterate cb self j wait s).1) ∧
      (sim_cpuburst_iterate cb self k wait s).1 ≤ 0 ∧
      ∀ fuel, k ≤ fuel →
        sim_cpuburst cb self wait fuel s = some (sim_cpuburst_iterate cb self k wait s).2) ∧
    (∀ (w : Int) (t : Engine), 0 < w →
      ((sim_cpuburst_iter cb self w t).2.sim_engine_iowait.length + 1
          = t.sim_engine_iowait.length ∧
        (0 < ((sim_cpuburst_iter cb self w t).2.pcb self).cpu_maxburst ↔
          0 < (t.pcb self).cpu_maxburst)) ∨
      (0 < (t.pcb self).cpu_maxburst ∧
        ((sim_cpuburst_iter cb self w t).2.pcb self).cpu_maxburst = 0 ∧
        (sim_cpuburst_iter cb self w t).2.sim_engine_iowait = t.sim_engine_iowait) ∨
      (sim_cpuburst_iter cb self w t).1 = 0) := by
  constructor
  · obtain ⟨k, a, b, c, d⟩ :=
      sim_cpuburst_loop_exit self (s.sim_engine_iowait.length + 2) wait s (burst_fuel_le self s)
    refine ⟨k, a, ?_, ?_, ?_⟩
    · intro j hj
      rw [sim_cpuburst_iterate_inert cb hcb]
      exact b j hj
    · rw [sim_cpuburst_iterate_inert cb hcb]
      exact c
    · intro fuel hfuel
      unfold sim_cpuburst
      rw [sim_cpuburst_loop_inert cb hcb, sim_cpuburst_iterate_inert cb hcb]
      exact d fuel hfuel
  · intro w t _
    rw [sim_cpuburst_iter_inert cb hcb]
    exact sim_cpuburst_iter_progress self w t

theorem sim_cpuburst_terminates_witness :
    idle_callbacks.inert ∧
    ((∃ k, k ≤ burst_state.sim_engine_iowait.length + 2 ∧
      (∀ j, j < k → 0 < (sim_cpuburst_iterate idle_callbacks 3 j 10 burst_state).1) ∧
      (sim_cpuburst_iterate idle_callbacks 3 k 10 burst_state).1 ≤ 0 ∧
      ∀ fuel, k ≤ fuel →
        sim_cpuburst idle_callbacks 3 10 fuel burst_state
          = some (sim_cpuburst_iterate idle_callbacks 3 k 10 burst_state).2) ∧
    (∀ (w : Int) (t : Engine), 0 < w →
      ((sim_cpuburst_iter idle_callbacks 3 w t).2.sim_engine_iowait.length + 1
          = t.sim_engine_iowait.length ∧
        (0 < ((sim_cpuburst_iter idle_callbacks 3 w t).2.pcb 3).cpu_maxburst ↔
          0 < (t.pcb 3).cpu_maxburst)) ∨
      (0 < (t.pcb 3).cpu_maxburst ∧
        ((sim_cpuburst_iter idle_callbacks 3 w t).2.pcb 3).cpu_maxburst = 0 ∧
        (sim_cpuburst_iter idle_callbacks 3 w t).2.sim_engine_iowait = t.sim_engine_iowait) ∨
      (sim_cpuburst_iter idle_callbacks 3 w t).1 = 0)) :=
  ⟨idle_callbacks_inert,
    sim_cpuburst_terminates idle_callbacks idle_callbacks_inert 3 10 burst_state⟩

/-- The values of `wait` before and after each of the three iterations of the
burst of 10 in `burst_state` (slice 4, one completion due within the burst):
slice runout, I/O completion, completion of the burst. -/
theorem sim_cpuburst_iterations_example :
    [0, 1, 2, 3].map (fun k => (sim_cpuburst_iterate idle_callbacks 3 k 10 burst_state).1)
      = [10, 6, 5, 0] := by
  decide

/-- C19: if every control block occurs at most once across active and iowait
together, then, with callbacks that leave the engine state unchanged, this
still holds after `sim_deviorequest` called by a process that is in active,
after `sim_wait_nextintr`, and after an iteration of the `sim_cpuburst` loop.
None of them duplicates or drops a control block: after `sim_deviorequest` the
two queues together are a permutation of what they were, and after the other
two the concatenation of active and iowait is the very same list (the head of
iowait has moved to the tail of active, or nothing has moved). -/
theorem queue_membership_preserved (cb : Callbacks) (hcb : cb.inert) (self : Nat) (wait : Int)
    (s : Engine) (hnd : (s.sim_engine_active ++ s.sim_engine_iowait).Nodup) :
    (self ∈ s.sim_engine_active →
      ((sim_deviorequest self wait s).sim_engine_active
          ++ (sim_deviorequest self wait s).sim_engine_iowait).Nodup ∧
      ((sim_deviorequest self wait s).sim_engine_active
          ++ (sim_deviorequest self wait s).sim_engine_iowait).Perm
        (s.sim_engine_active ++ s.sim_engine_iowait)) ∧
    (((sim_wait_nextintr cb s).sim_engine_active
        ++ (sim_wait_nextintr cb s).sim_engine_iowait).Nodup ∧
      (sim_wait_nextintr cb s).sim_engine_active ++ (sim_wait_nextintr cb s).sim_engine_iowait
        = s.sim_engine_active ++ s.sim_engine_iowait) ∧
    (((sim_cpuburst_iter cb self wait s).2.sim_engine_active
        ++ (sim_cpuburst_iter cb self wait s).2.sim_engine_iowait).Nodup ∧
      (sim_cpuburst_iter cb self wait s).2.sim_engine_active
          ++ (sim_cpuburst_iter cb self wait s).2.sim_engine_iowait
        = s.sim_engine_active ++ s.sim_engine_iowait) := by
  refine ⟨fun hself => ?_, ?_, ?_⟩
  · have hperm := sim_deviorequest_perm self wait s hself
    exact ⟨hperm.nodup_iff.2 hnd, hperm⟩
  · have e := sim_wait_nextintr_queues cb hcb s
    exact ⟨by rw [e]; exact hnd, e⟩
  · rw [sim_cpuburst_iter_inert cb hcb]
    have e := sim_cpuburst_iter_queues self wait s
    exact ⟨by rw [e]; exact hnd, e⟩

theorem queue_membership_preserved_witness :
    (idle_callbacks.inert ∧
      (burst_state.sim_engine_active ++ burst_state.sim_engine_iowait).Nodup) ∧
    ((3 ∈ burst_state.sim_engine_active →
      ((sim_deviorequest 3 10 burst_state).sim_engine_active
          ++ (sim_deviorequest 3 10 burst_state).sim_engine_iowait).Nodup ∧
      ((sim_deviorequest 3 10 burst_state).sim_engine_active
          ++ (sim_deviorequest 3 10 burst_state).sim_engine_iowait).Perm
        (burst_state.sim_engine_active ++ burst_state.sim_engine_iowait)) ∧
    (((sim_wait_nextintr idle_callbacks burst_state).sim_engine_active
        ++ (sim_wait_nextintr idle_callbacks burst_state).sim_engine_iowait).Nodup ∧
      (sim_wait_nextintr idle_callbacks burst_state).sim_engine_active
          ++ (sim_wait_nextintr idle_callbacks burst_state).sim_engine_iowait
        = burst_state.sim_engine_active ++ burst_state.sim_engine_iowait) ∧
    (((sim_cpuburst_iter idle_callbacks 3 10 burst_state).2.sim_engine_active
        ++ (sim_cpuburst_iter idle_callbacks 3 10 burst_state).2.sim_engine_iowait).Nodup ∧
      (sim_cpuburst_iter idle_callbacks 3 10 burst_state).2.sim_engine_active
          ++ (sim_cpuburst_iter idle_callbacks 3 10 burst_state).2.sim_engine_iowait
        = burst_state.sim_engine_active ++ burst_state.sim_engine_iowait)) :=
  ⟨⟨idle_callbacks_inert, by decide⟩,
    queue_membership_preserved idle_callbacks idle_callbacks_inert 3 10 burst_state (by decide)⟩

/-- C20: in a loop iteration of `sim_cpuburst` that takes the I/O-completion
branch (the head of iowait is due strictly before clock + budget), entered
with the head's deadline at least the clock and a slice `cpu_maxburst > 0`,
and with callbacks that leave the engine state unchanged: `wait` and the slice
both go down by the same amount `d = deadline - clock >= 0`, the slice is
still strictly positive and `wait` is still strictly positive afterwards, and
the difference `wait - cpu_maxburst` is the same as before.  A limited slice
therefore does not become the value 0 that means unlimited through an I/O
delivery. -/
theorem ioready_branch_keeps_slice_positive (cb : Callbacks) (hcb : cb.inert) (self : Nat)
    (wait : Int) (s : Engine) (head : Nat) (rest : List Nat)
    (hq : s.sim_engine_iowait = head :: rest)
    (hlt : (s.pcb head).ioready_clock
      < burst_budget (s.pcb self).cpu_maxburst wait + s.sim_engine_clock)
    (hdue : s.sim_engine_clock ≤ (s.pcb head).ioready_clock)
    (hslice : 0 < (s.pcb self).cpu_maxburst) :
    sim_cpuburst_iter cb self wait s = sim_cpuburst_ioready cb self wait head s ∧
    (sim_cpuburst_iter cb self wait s).1
      = wait - ((s.pcb head).ioready_clock - s.sim_engine_clock) ∧
    ((sim_cpuburst_iter cb self wait s).2.pcb self).cpu_maxburst
      = (s.pcb self).cpu_maxburst - ((s.pcb head).ioready_clock - s.sim_engine_clock) ∧
    0 ≤ (s.pcb head).ioready_clock - s.sim_engine_clock ∧
    0 < ((sim_cpuburst_iter cb self wait s).2.pcb self).cpu_maxburst ∧
    0 < (sim_cpuburst_iter cb self wait s).1 ∧
    (sim_cpuburst_iter cb self wait s).1
        - ((sim_cpuburst_iter cb self wait s).2.pcb self).cpu_maxburst
      = wait - (s.pcb self).cpu_maxburst := by
  have hio : ioready_first self wait s = some head := by
    unfold ioready_first
    rw [hq]
    simp only
    rw [if_pos hlt]
  have hbs := burst_budget_le_slice (s.pcb self).cpu_maxburst wait hslice
  have hbw := burst_budget_le_wait (s.pcb self).cpu_maxburst wait
  obtain ⟨h1, _, _, _, _, h6, _, _⟩ := sim_cpuburst_ioready_idle self wait head s
  rw [if_pos hslice] at h6
  refine ⟨sim_cpuburst_iter_ioready cb self wait s head hio, ?_⟩
  rw [sim_cpuburst_iter_inert cb hcb, sim_cpuburst_iter_ioready _ _ _ _ head hio, h1, h6]
  refine ⟨rfl, rfl, ?_, ?_, ?_, ?_⟩ <;> omega

theorem ioready_branch_keeps_slice_positive_witness :
    (idle_callbacks.inert ∧ io_slice_state.sim_engine_iowait = 1 :: [2] ∧
      (io_slice_state.pcb 1).ioready_clock
        < burst_budget (io_slice_state.pcb 3).cpu_maxburst 20 + io_slice_state.sim_engine_clock ∧
      io_slice_state.sim_engine_clock ≤ (io_slice_state.pcb 1).ioready_clock ∧
      0 < (io_slice_state.pcb 3).cpu_maxburst) ∧
    (sim_cpuburst_iter idle_callbacks 3 20 io_slice_state
      = sim_cpuburst_ioready idle_callbacks 3 20 1 io_slice_state ∧
    (sim_cpuburst_iter idle_callbacks 3 20 io_slice_state).1
      = 20 - ((io_slice_state.pcb 1).ioready_clock - io_slice_state.sim_engine_clock) ∧
    ((sim_cpuburst_iter idle_callbacks 3 20 io_slice_state).2.pcb 3).cpu_maxburst
      = (io_slice_state.pcb 3).cpu_maxburst
        - ((io_slice_state.pcb 1).ioready_clock - io_slice_state.sim_engine_clock) ∧
    0 ≤ (io_slice_state.pcb 1).ioready_clock - io_slice_state.sim_engine_clock ∧
    0 < ((sim_cpuburst_iter idle_callbacks 3 20 io_slice_state).2.pcb 3).cpu_maxburst ∧
    0 < (sim_cpuburst_iter idle_callbacks 3 20 io_slice_state).1 ∧
    (sim_cpuburst_iter idle_callbacks 3 20 io_slice_state).1
        - ((sim_cpuburst_iter idle_callbacks 3 20 io_slice_state).2.pcb 3).cpu_maxburst
      = 20 - (io_slice_state.pcb 3).cpu_maxburst) :=
  ⟨⟨idle_callbacks_inert, rfl, by decide, by decide, by decide⟩,
    ioready_branch_keeps_slice_positive idle_callbacks idle_callbacks_inert 3 20 io_slice_state
      1 [2] rfl (by decide) (by decide) (by decide)⟩

/-! ## The priority scheduler (C21) -/

/-- C21: the function `sched` of the priority scheduler, called with no active
process or by a simulated process, first re-queues the active process, if any,
at the tail of `ready_queue` (state `st1`).  Then either it selects a process
`q` with `ready_queue = pre ++ q :: post`, where the priority value of `q` is
below 4 (`PRIORITY_LOW + 1`), strictly below that of every process queued
before it and at most that of every process queued after it (the first process
of minimum priority value, ties going to the earliest queued); `q` is removed
from `ready_queue`, becomes `activeproc`, is marked RUNNING and is resumed by
`sim_cpustate_restore` with `SIM_CPUMAXBURST`.  Or every queued process has a
priority value of at least 4 (in particular when the queue is empty): no
process is selected, `activeproc` stays `NULL`, and `sim_wait_nextintr` is
called instead. -/
theorem sched_selects_first_minimum (cb : Callbacks) (self : Option Nat) (st : Policy)
    (hself : st.activeproc = none ∨ self ≠ none) :
    ∃ st1, sched_requeue self st = some st1 ∧
      st1.ready_queue = (match st.activeproc with
        | some a => st.ready_queue ++ [a]
        | none => st.ready_queue) ∧
      (∀ p, (st1.procs p).priority = (st.procs p).priority) ∧
      ((∃ q pre post, st1.ready_queue = pre ++ q :: post ∧
          (st1.procs q).priority < 4 ∧
          (∀ x ∈ pre, (st1.procs q).priority < (st1.procs x).priority) ∧
          (∀ x ∈ post, (st1.procs q).priority ≤ (st1.procs x).priority) ∧
          sched cb self st = some
            { st1 with
              activeproc := some q
              ready_queue := pre ++ post
              procs := upd st1.procs q
                { st1.procs q with proc_state := sim_proc_state.RUNNING }
              engine := sim_cpustate_restore self q SIM_CPUMAXBURST st1.engine }) ∨
        ((∀ x ∈ st1.ready_queue, 4 ≤ (st1.procs x).priority) ∧
          sched cb self st = some
            { st1 with activeproc := none, engine := sim_wait_nextintr cb st1.engine })) := by
  obtain ⟨st1, e1, e2, _, _, e5⟩ := sched_requeue_spec self st hself
  refine ⟨st1, e1, e2, e5, ?_⟩
  have h4 : PRIORITY_LOW + 1 = 4 := by decide
  rcases sched_scan_spec st1.procs st1.ready_queue (PRIORITY_LOW + 1) none with
    ⟨h1, h2⟩ | ⟨q, pre, post, h1, h2, h3, h5, h6⟩
  · right
    refine ⟨fun x hx => by have := h1 x hx; rwa [h4] at this, ?_⟩
    unfold sched
    rw [e1]
    simp only [h2]
  · left
    refine ⟨q, pre, post, h1, by rwa [h4] at h2, h3, h5, ?_⟩
    have hq : q ∉ pre := fun hmem => lt_irrefl _ (h3 q hmem)
    have herase : st1.ready_queue.erase q = pre ++ post := by
      rw [h1, List.erase_append_right _ hq, List.erase_cons_head]
    unfold sched
    rw [e1]
    simp only [h6, herase]

theorem sched_selects_first_minimum_witness :
    (priority_state.activeproc = none ∨ (some 5 : Option Nat) ≠ none) ∧
    ∃ st1, sched_requeue (some 5) priority_state = some st1 ∧
      st1.ready_queue = (match priority_state.activeproc with
        | some a => priority_state.ready_queue ++ [a]
        | none => priority_state.ready_queue) ∧
      (∀ p, (st1.procs p).priority = (priority_state.procs p).priority) ∧
      ((∃ q pre post, st1.ready_queue = pre ++ q :: post ∧
          (st1.procs q).priority < 4 ∧
          (∀ x ∈ pre, (st1.procs q).priority < (st1.procs x).priority) ∧
          (∀ x ∈ post, (st1.procs q).priority ≤ (st1.procs x).priority) ∧
          sched idle_callbacks (some 5) priority_state = some
            { st1 with
              activeproc := some q
              ready_queue := pre ++ post
              procs := upd st1.procs q
                { st1.procs q with proc_state := sim_proc_state.RUNNING }
              engine := sim_cpustate_restore (some 5) q SIM_CPUMAXBURST st1.engine }) ∨
        ((∀ x ∈ st1.ready_queue, 4 ≤ (st1.procs x).priority) ∧
          sched idle_callbacks (some 5) priority_state = some
            { st1 with
              activeproc := none
              engine := sim_wait_nextintr idle_callbacks st1.engine })) :=
  ⟨Or.inr (by decide),
    sched_selects_first_minimum idle_callbacks (some 5) priority_state (Or.inr (by decide))⟩

/-- The ready queue [1, 2, 3, 4] has priorities 3, 1, 2, 1 and the process 5 is
active: `sched` re-queues 5, selects 2 (the first of the two processes of
priority 1), leaves [1, 3, 4, 5] queued, marks 2 RUNNING and grants it a slice
of 100. -/
theorem sched_example :
    (sched idle_callbacks (some 5) priority_state).map
        (fun st => (st.activeproc, st.ready_queue, (st.procs 2).proc_state,
          (st.procs 5).proc_state, (st.engine.pcb 2).cpu_maxburst))
      = some (some 2, [1, 3, 4, 5], sim_proc_state.RUNNING, sim_proc_state.READY, 100) := by
  decide

/-- With only priorities of 4 and more in the ready queue and a pending I/O
completion at clock 50, `sched` selects nothing and the call of
`sim_wait_nextintr` moves the clock to 50. -/
theorem sched_nothing_ready_example :
    (sched idle_callbacks none
        { priority_state with
          procs := fun p => { priority_state.procs p with priority := 4 + p }
          activeproc := none
          ready_queue := [1, 2]
          engine :=
            { priority_state.engine with
              sim_engine_iowait := [3]
              pcb := fun p => { priority_state.engine.pcb p with ioready_clock := 50 } } }).map
        (fun st => (st.activeproc, st.ready_queue, st.engine.sim_engine_clock,
          st.engine.sim_engine_iowait))
      = some (none, [1, 2], 50, []) := by
  decide

end SimEngine
